import Mathlib

/-!
# Verification of `az_table_catalog`

A shallow embedding of `src/az_table_catalog/az_table_catalog.py` and proofs
about its key codec, WAL replay engine and query engine.

Modelling conventions:
* Python `dict` values are modelled as `String` (records hold scalars and the
  code passes every value through `str(...)` before it reaches a key).
* A Python dict is an association list with unique keys kept in insertion
  order; Python's `{**a, **b}` update semantics are `dunion`, Python `==` on
  dicts is `dBeq` (key-set plus value equality, order-independent).
* The Azure table backing store is a list of entities sorted by
  (PartitionKey, RowKey); `query_entities` therefore yields entities in
  ascending row-key order inside a partition, as the real service does.
* Transient backing-store failures on the index table are modelled by a
  `faults` list of (PartitionKey, RowKey) cells: an operation touching a
  faulty cell raises `storeService`, the analogue of an Azure `HttpResponseError`
  that is neither `ResourceExistsError` nor `ResourceNotFoundError`.
* `hashlib.md5(...).hexdigest()` is implemented bit-for-bit (RFC 1321) on the
  UTF-8 bytes of the input, as in CPython.
-/

set_option autoImplicit false
set_option maxRecDepth 16384

namespace AzTableCatalog

/-! ## Ordinal string comparison

The backing store compares partition and row keys by code point, which is
also Python's `str` comparison.  These executable comparators are proved
equivalent to the lexicographic order on `String` further below. -/

/-- `c < d` on code points. -/
def charLtB (c d : Char) : Bool :=
  c.toNat < d.toNat

/-- Lexicographic strict comparison of character lists. -/
def charsLtB : List Char → List Char → Bool
  | [], [] => false
  | [], _ :: _ => true
  | _ :: _, [] => false
  | c :: cs, d :: ds => charLtB c d || (c == d && charsLtB cs ds)

/-- `a < b` on strings, by code point. -/
def strLtB (a b : String) : Bool :=
  charsLtB a.data b.data

/-- `a <= b` on strings, by code point. -/
def strLeB (a b : String) : Bool :=
  !(strLtB b a)

/-! ## Python dictionaries -/

/-- A Python `dict` with `String` keys and (stringly-typed) scalar values. -/
abbrev Dict := List (String × String)

/-- `d[k]` lookup returning `none` instead of raising `KeyError`. -/
def dget? (d : Dict) (k : String) : Option String :=
  match d with
  | [] => none
  | (k0, v0) :: rest => if k0 = k then some v0 else dget? rest k

/-- `d[k] = v`: replace in place if the key exists, else append (CPython
insertion-order semantics). -/
def dset (d : Dict) (k v : String) : Dict :=
  match d with
  | [] => [(k, v)]
  | (k0, v0) :: rest => if k0 = k then (k, v) :: rest else (k0, v0) :: dset rest k v

/-- `{**d, **upd}`: later keys override earlier ones. -/
def dunion (d upd : Dict) : Dict :=
  upd.foldl (fun acc kv => dset acc kv.1 kv.2) d

/-- One direction of Python dict equality. -/
def dsub (d1 d2 : Dict) : Bool :=
  d1.all fun kv => dget? d2 kv.1 == some kv.2

/-- Python `==` on dicts: same keys, same values, order-independent. -/
def dBeq (d1 d2 : Dict) : Bool :=
  dsub d1 d2 && dsub d2 d1

/-! ## MD5 (`hashlib.md5`), needed by `_row_key`'s content fingerprint -/

/-- Low 32-bit mask. -/
def mask32 : Nat := 4294967295

/-- 32-bit left rotation. -/
def rotl32 (x s : Nat) : Nat :=
  ((x <<< s) ||| (x >>> (32 - s))) &&& mask32

/-- UTF-8 encoding of one code point (Python `str.encode()`). -/
def utf8Bytes (c : Char) : List Nat :=
  let n := c.toNat
  if n < 128 then [n]
  else if n < 2048 then [192 ||| (n >>> 6), 128 ||| (n &&& 63)]
  else if n < 65536 then
    [224 ||| (n >>> 12), 128 ||| ((n >>> 6) &&& 63), 128 ||| (n &&& 63)]
  else
    [240 ||| (n >>> 18), 128 ||| ((n >>> 12) &&& 63), 128 ||| ((n >>> 6) &&& 63),
      128 ||| (n &&& 63)]

/-- UTF-8 bytes of a string. -/
def strBytes (s : String) : List Nat :=
  (s.data.map utf8Bytes).flatten

/-- `k` little-endian bytes of `n`. -/
def leBytes : Nat → Nat → List Nat
  | 0, _ => []
  | k + 1, n => (n &&& 255) :: leBytes k (n >>> 8)

/-- Read a little-endian word from its bytes. -/
def leWord (bs : List Nat) : Nat :=
  bs.foldr (fun b acc => acc * 256 + b) 0

/-- MD5 padding: `0x80`, zeros to 56 mod 64, then the 64-bit bit length. -/
def md5Pad (msg : List Nat) : List Nat :=
  let len := msg.length
  let padZeros := (120 - ((len + 1) % 64)) % 64
  msg ++ 128 :: List.replicate padZeros 0 ++
    leBytes 8 ((len * 8) % 18446744073709551616)

/-- Split a byte list into chunks of `k + 1` bytes (structural, so that the
kernel can evaluate it inside `decide`). -/
def chunksOf (k : Nat) (l : List Nat) : List (List Nat) :=
  (List.range ((l.length + k) / (k + 1))).map fun i =>
    (l.drop (i * (k + 1))).take (k + 1)

/-- The 64 MD5 sine constants. -/
def md5K : List Nat :=
  [0xd76aa478, 0xe8c7b756, 0x242070db, 0xc1bdceee,
   0xf57c0faf, 0x4787c62a, 0xa8304613, 0xfd469501,
   0x698098d8, 0x8b44f7af, 0xffff5bb1, 0x895cd7be,
   0x6b901122, 0xfd987193, 0xa679438e, 0x49b40821,
   0xf61e2562, 0xc040b340, 0x265e5a51, 0xe9b6c7aa,
   0xd62f105d, 0x02441453, 0xd8a1e681, 0xe7d3fbc8,
   0x21e1cde6, 0xc33707d6, 0xf4d50d87, 0x455a14ed,
   0xa9e3e905, 0xfcefa3f8, 0x676f02d9, 0x8d2a4c8a,
   0xfffa3942, 0x8771f681, 0x6d9d6122, 0xfde5380c,
   0xa4beea44, 0x4bdecfa9, 0xf6bb4b60, 0xbebfbc70,
   0x289b7ec6, 0xeaa127fa, 0xd4ef3085, 0x04881d05,
   0xd9d4d039, 0xe6db99e5, 0x1fa27cf8, 0xc4ac5665,
   0xf4292244, 0x432aff97, 0xab9423a7, 0xfc93a039,
   0x655b59c3, 0x8f0ccc92, 0xffeff47d, 0x85845dd1,
   0x6fa87e4f, 0xfe2ce6e0, 0xa3014314, 0x4e0811a1,
   0xf7537e82, 0xbd3af235, 0x2ad7d2bb, 0xeb86d391]

/-- The 64 MD5 per-round shift amounts. -/
def md5S : List Nat :=
  [7, 12, 17, 22, 7, 12, 17, 22, 7, 12, 17, 22, 7, 12, 17, 22,
   5, 9, 14, 20, 5, 9, 14, 20, 5, 9, 14, 20, 5, 9, 14, 20,
   4, 11, 16, 23, 4, 11, 16, 23, 4, 11, 16, 23, 4, 11, 16, 23,
   6, 10, 15, 21, 6, 10, 15, 21, 6, 10, 15, 21, 6, 10, 15, 21]

/-- Round function of MD5. -/
def md5F (i b c d : Nat) : Nat :=
  if i < 16 then (b &&& c) ||| ((b ^^^ mask32) &&& d)
  else if i < 32 then (d &&& b) ||| ((d ^^^ mask32) &&& c)
  else if i < 48 then b ^^^ c ^^^ d
  else c ^^^ (b ||| (d ^^^ mask32))

/-- Message-word schedule of MD5. -/
def md5G (i : Nat) : Nat :=
  if i < 16 then i
  else if i < 32 then (5 * i + 1) % 16
  else if i < 48 then (3 * i + 5) % 16
  else (7 * i) % 16

/-- One of the 64 MD5 operations. -/
def md5Step (M : List Nat) (st : Nat × Nat × Nat × Nat) (i : Nat) :
    Nat × Nat × Nat × Nat :=
  let (a, b, c, d) := st
  let tmp := (a + md5F i b c d + md5K.getD i 0 + M.getD (md5G i) 0) &&& mask32
  (d, (b + rotl32 tmp (md5S.getD i 0)) &&& mask32, b, c)

/-- Process one 64-byte block. -/
def md5Block (st : Nat × Nat × Nat × Nat) (block : List Nat) :
    Nat × Nat × Nat × Nat :=
  let M := (chunksOf 3 block).map leWord
  let (a, b, c, d) := (List.range 64).foldl (md5Step M) st
  ((st.1 + a) &&& mask32, (st.2.1 + b) &&& mask32, (st.2.2.1 + c) &&& mask32,
    (st.2.2.2 + d) &&& mask32)

/-- MD5 digest (16 bytes) of a byte message. -/
def md5Digest (msg : List Nat) : List Nat :=
  let st := (chunksOf 63 (md5Pad msg)).foldl md5Block
    (1732584193, 4023233417, 2562383102, 271733878)
  leBytes 4 st.1 ++ leBytes 4 st.2.1 ++ leBytes 4 st.2.2.1 ++ leBytes 4 st.2.2.2

/-- One lowercase hex digit. -/
def toHexDigit : Nat → Char
  | 0 => '0' | 1 => '1' | 2 => '2' | 3 => '3' | 4 => '4'
  | 5 => '5' | 6 => '6' | 7 => '7' | 8 => '8' | 9 => '9'
  | 10 => 'a' | 11 => 'b' | 12 => 'c' | 13 => 'd' | 14 => 'e' | _ => 'f'

/-- `hexdigest()` of the MD5 of a byte message, as a character list. -/
def md5HexChars (msg : List Nat) : List Char :=
  ((md5Digest msg).map (fun b => [toHexDigit (b >>> 4), toHexDigit (b &&& 15)])).flatten

/-! ## Key codec -/

/-- Python `str(n)` for a natural number: minimal decimal digits. -/
def decChar : Nat → Char
  | 0 => '0' | 1 => '1' | 2 => '2' | 3 => '3' | 4 => '4'
  | 5 => '5' | 6 => '6' | 7 => '7' | 8 => '8' | _ => '9'

/-- Digits of `n` in decimal, most significant first, with explicit fuel so
that the definition is structural and kernel-reducible.  Any fuel with
`n < 10 ^ fuel` yields the minimal decimal digit string. -/
def natReprCore : Nat → Nat → List Char
  | 0, _ => []
  | fuel + 1, n =>
    if n < 10 then [decChar n]
    else natReprCore fuel (n / 10) ++ [decChar (n % 10)]

/-- Python `str` on a non-negative integer. -/
def natRepr (n : Nat) : String :=
  ⟨natReprCore (n + 1) n⟩

/-- Python `str.lower()` (ASCII case folding, which is all the code relies on). -/
def pyLower (s : String) : String :=
  ⟨s.data.map Char.toLower⟩

/-- Embedding of `_partition_key`: `f"{len(field)}_{field}{value}".lower()`. -/
def partition_key (field value : String) : String :=
  pyLower (natRepr field.length ++ "_" ++ field ++ value)

/-- Python `sorted` on strings: insertion sort by the code-point order. -/
def insOrd (x : String) : List String → List String
  | [] => [x]
  | y :: ys => if strLeB x y then x :: y :: ys else y :: insOrd x ys

/-- Python `sorted(index_keys)`. -/
def pySorted (l : List String) : List String :=
  l.foldr insOrd []

/-- Python `"|".join(vs)`. -/
def joinPipe : List String → String
  | [] => ""
  | [v] => v
  | v :: v2 :: vs => v ++ "|" ++ joinPipe (v2 :: vs)

/-- `hashlib.md5(index_values.encode()).hexdigest()[:8]`. -/
def fingerprint (indexValues : String) : String :=
  ⟨(md5HexChars (strBytes indexValues)).take 8⟩

/-- `record[k]` for each listed key; `none` models the `KeyError` the source
raises when an index-key value is absent. -/
def mapValues (record : Dict) : List String → Option (List String)
  | [] => some []
  | k :: ks =>
    match dget? record k with
    | none => none
    | some v =>
      match mapValues record ks with
      | none => none
      | some vs => some (v :: vs)

/-- Embedding of `_row_key`: `f"{row_key_value}:{fingerprint}"` where the
fingerprint hashes the sorted, lower-cased index-key values joined by `|`. -/
def row_key (record : Dict) (row_key_value : String) (index_keys : List String) :
    Option String :=
  match mapValues record (pySorted index_keys) with
  | none => none
  | some vs =>
    some (row_key_value ++ ":" ++ fingerprint (joinPipe (vs.map pyLower)))

/-- Embedding of `_entity_to_payload`: strip the Azure storage metadata keys. -/
def entity_to_payload (e : Dict) : Dict :=
  e.filter fun kv => !(["PartitionKey", "RowKey", "Timestamp", "etag"].contains kv.1)

/-! ## The Azure table backing store -/

/-- A storage address: (PartitionKey, RowKey). -/
abbrev SKey := String × String

/-- One Azure table: entities sorted by (PartitionKey, RowKey), the order in
which the service returns them to queries. -/
abbrev Store := List (SKey × Dict)

/-- Strict order on storage addresses. -/
def skeyLtB (a b : SKey) : Bool :=
  strLtB a.1 b.1 || (a.1 == b.1 && strLtB a.2 b.2)

/-- Errors surfaced by the store and the client.  `alreadyExists` and
`notFound` play the roles of `ResourceExistsError` and
`ResourceNotFoundError`; `storeService` is any other service failure;
`keyError` and `stopIteration` are the Python exceptions of those names;
the remaining constructors are the `ValueError`s the client raises. -/
inductive AppErr where
  | stopIteration
  | filterNotSingleton
  | unknownField (field : String)
  | missingFields (fields : List String)
  | alreadyExists
  | notFound
  | storeService
  | keyError
deriving DecidableEq, Repr

instance {ε α : Type} [DecidableEq ε] [DecidableEq α] : DecidableEq (Except ε α) :=
  fun a b =>
    match a, b with
    | .ok x, .ok y =>
      if h : x = y then .isTrue (by rw [h]) else .isFalse (by simp [h])
    | .error x, .error y =>
      if h : x = y then .isTrue (by rw [h]) else .isFalse (by simp [h])
    | .ok _, .error _ => .isFalse (by simp)
    | .error _, .ok _ => .isFalse (by simp)

/-- Write at an address, keeping the store sorted; replaces an existing entity. -/
def storePut (s : Store) (k : SKey) (e : Dict) : Store :=
  match s with
  | [] => [(k, e)]
  | (k0, e0) :: rest =>
    if k = k0 then (k, e) :: rest
    else if skeyLtB k k0 then (k, e) :: (k0, e0) :: rest
    else (k0, e0) :: storePut rest k e

/-- Look an address up. -/
def storeGet? (s : Store) (k : SKey) : Option Dict :=
  match s with
  | [] => none
  | (k0, e0) :: rest => if k0 = k then some e0 else storeGet? rest k

/-- Remove an address. -/
def storeErase (s : Store) (k : SKey) : Store :=
  s.filter fun kv => kv.1 ≠ k

/-- The storage address an entity dict is written to. -/
def entKey (ent : Dict) : SKey :=
  ((dget? ent "PartitionKey").getD "", (dget? ent "RowKey").getD "")

/-- `create_entity`: fails on an occupied address with `alreadyExists`; a cell
listed in `faults` fails with a generic service error instead. -/
def storeCreateF (faults : List SKey) (s : Store) (ent : Dict) :
    Store × Option AppErr :=
  if entKey ent ∈ faults then (s, some .storeService)
  else
    match storeGet? s (entKey ent) with
    | some _ => (s, some .alreadyExists)
    | none => (storePut s (entKey ent) ent, none)

/-- `delete_entity`: fails on a missing address with `notFound`; a faulty cell
fails with a generic service error. -/
def storeDeleteF (faults : List SKey) (s : Store) (k : SKey) :
    Store × Option AppErr :=
  if k ∈ faults then (s, some .storeService)
  else
    match storeGet? s k with
    | none => (s, some .notFound)
    | some _ => (storeErase s k, none)

/-- `upsert_entity(mode='replace')`: unconditional write. -/
def storeUpsert (s : Store) (ent : Dict) : Store :=
  storePut s (entKey ent) ent

/-! ## The catalog client -/

/-- The locked schema (`self._index_keys`, `self._row_key`). -/
structure Config where
  index_keys : List String
  row_key_field : String
deriving DecidableEq

/-- The two backing tables held by a `TableCatalogClient`. -/
structure CState where
  table : Store
  wal : Store
deriving DecidableEq

/-- The entity written by one fan-out step of `_apply_insert`:
`{"PartitionKey": pk, "RowKey": rk, **payload}`. -/
def insEntity (payload : Dict) (rk key v : String) : Dict :=
  dunion [("PartitionKey", partition_key key v), ("RowKey", rk)] payload

/-- The fan-out loop of `_apply_insert`: one `create_entity` per index-key
field, swallowing `ResourceExistsError`. -/
def createLoop (faults : List SKey) (payload : Dict) (rk : String)
    (table : Store) : List String → Store × Option AppErr
  | [] => (table, none)
  | key :: rest =>
    match dget? payload key with
    | none => (table, some .keyError)
    | some v =>
      match storeCreateF faults table (insEntity payload rk key v) with
      | (t, none) => createLoop faults payload rk t rest
      | (t, some .alreadyExists) => createLoop faults payload rk t rest
      | (t, some e) => (t, some e)

/-- Embedding of `_apply_insert`. -/
def apply_insert (cfg : Config) (faults : List SKey) (table : Store)
    (payload : Dict) : Store × Option AppErr :=
  match dget? payload cfg.row_key_field with
  | none => (table, some .keyError)
  | some pv =>
    match row_key payload pv cfg.index_keys with
    | none => (table, some .keyError)
    | some rk => createLoop faults payload rk table cfg.index_keys

/-- The loop of `_apply_delete`: one `delete_entity` per index-key field,
swallowing `ResourceNotFoundError`. -/
def deleteLoop (faults : List SKey) (payload : Dict) (rk : String)
    (table : Store) : List String → Store × Option AppErr
  | [] => (table, none)
  | key :: rest =>
    match dget? payload key with
    | none => (table, some .keyError)
    | some v =>
      match storeDeleteF faults table (partition_key key v, rk) with
      | (t, none) => deleteLoop faults payload rk t rest
      | (t, some .notFound) => deleteLoop faults payload rk t rest
      | (t, some e) => (t, some e)

/-- Embedding of `_apply_delete`. -/
def apply_delete (cfg : Config) (faults : List SKey) (table : Store)
    (payload : Dict) : Store × Option AppErr :=
  match dget? payload cfg.row_key_field with
  | none => (table, some .keyError)
  | some pv =>
    match row_key payload pv cfg.index_keys with
    | none => (table, some .keyError)
    | some rk => deleteLoop faults payload rk table cfg.index_keys

/-- The checkpoint pointer entity written by `recover`. -/
def checkpointEntity (rid : String) : Dict :=
  [("PartitionKey", "metadata"), ("RowKey", "checkpoint"), ("datetime", rid)]

/-- The checkpoint identifier currently stored in the WAL table. -/
def readCheckpoint (wal : Store) : Option String :=
  (storeGet? wal ("metadata", "checkpoint")).bind fun e => dget? e "datetime"

/-- `start_time` resolution at the top of `recover` (`if not start_time:`
treats both `None` and the empty string as missing). -/
def resolveStart (wal : Store) (start_time : Option String) : String :=
  match start_time with
  | some t => if t = "" then (readCheckpoint wal).getD "1900-01-01" else t
  | none => (readCheckpoint wal).getD "1900-01-01"

/-- The WAL rows matched by `PartitionKey eq 'wal' and RowKey gt start`. -/
def walScanPairs (wal : Store) (start : String) : Store :=
  wal.filter fun kv => kv.1.1 == "wal" && strLtB start kv.1.2

/-- The entities handed to the replay loop, in ascending row-key order. -/
def walScan (wal : Store) (start : String) : List Dict :=
  (walScanPairs wal start).map fun kv => kv.2

/-- The effect of one WAL entry on the index table: `insert` and `delete`
fan out, any other operation tag does nothing. -/
def entryEffect (cfg : Config) (faults : List SKey) (table : Store)
    (orphan : Dict) (op : String) : Store × Option AppErr :=
  if op = "insert" then apply_insert cfg faults table (entity_to_payload orphan)
  else if op = "delete" then apply_delete cfg faults table (entity_to_payload orphan)
  else (table, none)

/-- The replay loop of `recover`: apply an entry, then advance the checkpoint
to its identifier; a failure aborts with the mutations so far kept. -/
def recoverLoop (cfg : Config) (faults : List SKey) :
    CState → List Dict → CState × Option AppErr
  | s, [] => (s, none)
  | s, orphan :: rest =>
    match dget? orphan "operation" with
    | none => (s, some .keyError)
    | some op =>
      match entryEffect cfg faults s.table orphan op with
      | (t, some e) => (⟨t, s.wal⟩, some e)
      | (t, none) =>
        match dget? orphan "RowKey" with
        | none => (⟨t, s.wal⟩, some .keyError)
        | some rid =>
          recoverLoop cfg faults ⟨t, storeUpsert s.wal (checkpointEntity rid)⟩ rest

/-- Embedding of `TableCatalogClient.recover`. -/
def recover (cfg : Config) (faults : List SKey) (s : CState)
    (start_time : Option String) : CState × Option AppErr :=
  recoverLoop cfg faults s (walScan s.wal (resolveStart s.wal start_time))

/-- Embedding of `TableCatalogClient.insert`.  `txId` is the row key produced
by `_make_tx_row_key()` (a wall-clock timestamp plus a random unique suffix);
it is passed explicitly because it is the one non-deterministic input. -/
def insert (cfg : Config) (s : CState) (record : Dict) (txId : String) :
    CState × Except AppErr Dict :=
  let missing := (cfg.index_keys ++ [cfg.row_key_field]).filter
    fun k => (dget? record k).isNone
  if missing.isEmpty then
    let ent := dunion [("PartitionKey", "wal"), ("RowKey", txId), ("operation", "insert")]
      record
    match storeCreateF [] s.wal ent with
    | (w, some e) => (⟨s.table, w⟩, .error e)
    | (w, none) =>
      match recover cfg [] ⟨s.table, w⟩ none with
      | (s2, some e) => (s2, .error e)
      | (s2, none) => (s2, .ok record)
  else (s, .error (.missingFields missing))

/-- One single-predicate scan: `_validate_filter` on a singleton filter
followed by the partition scan with the optional row-key bounds.  This is
exactly what the recursive call `self.query({field: value}, ...)` computes. -/
def single_query (cfg : Config) (s : CState) (field value : String)
    (row_from row_to : Option String) : Except AppErr (List Dict) :=
  if cfg.index_keys.contains field then
    let lo : Option String := match row_from with
      | some r => if r = "" then none else some (pyLower r ++ ":")
      | none => none
    let hi : Option String := match row_to with
      | some r => if r = "" then none else some (pyLower r ++ ":z")
      | none => none
    let pk := partition_key field value
    let ents := s.table.filter fun kv =>
      kv.1.1 == pk &&
      (match lo with | some l => strLeB l kv.1.2 | none => true) &&
      (match hi with | some h => strLeB kv.1.2 h | none => true)
    .ok (ents.map fun kv => entity_to_payload kv.2)
  else .error (.unknownField field)

/-- The loop over the remaining filter items: break once the running result
set is empty, otherwise intersect with an independent singleton query. -/
def queryRest (cfg : Config) (s : CState) (row_from row_to : Option String) :
    List (String × String) → List Dict → Except AppErr (List Dict)
  | [], results => .ok results
  | (f, v) :: rest, results =>
    if results.isEmpty then .ok results
    else
      match single_query cfg s f v row_from row_to with
      | .error e => .error e
      | .ok hits =>
        queryRest cfg s row_from row_to rest
          (results.filter fun r => hits.any fun m => dBeq r m)

/-- Embedding of `TableCatalogClient.query`.  The filter dict is the list of
its items in insertion order; `next(items)` on an empty filter raises
`StopIteration`. -/
def query (cfg : Config) (s : CState) (filter : List (String × String))
    (row_from row_to : Option String) : Except AppErr (List Dict) :=
  match filter with
  | [] => .error .stopIteration
  | (f, v) :: rest =>
    match single_query cfg s f v row_from row_to with
    | .error e => .error e
    | .ok results => queryRest cfg s row_from row_to rest results

/-! ## Well-formedness of reachable states

Entries written into the WAL partition by `_write_wal` always carry their own
row key, an operation tag, and (for `insert`/`delete` tags, which are only
written after validation or from a previous query hit) every schema field.
These executable predicates characterise that reachable shape; theorems about
arbitrary states assume them where the source would otherwise die with an
unrelated `KeyError`. -/

/-- All index-key fields and the primary field are present in a payload. -/
def requiredPresent (cfg : Config) (p : Dict) : Bool :=
  (cfg.index_keys ++ [cfg.row_key_field]).all fun k => (dget? p k).isSome

/-- Shape of one stored WAL-partition row `(("wal", rk), d)`. -/
def walEntryOK (cfg : Config) (kv : SKey × Dict) : Bool :=
  (dget? kv.2 "RowKey" == some kv.1.2) &&
    (match dget? kv.2 "operation" with
     | none => false
     | some op =>
       !(op == "insert" || op == "delete") ||
         requiredPresent cfg (entity_to_payload kv.2))

/-- Every row of the WAL partition is well-shaped. -/
def walOK (cfg : Config) (w : Store) : Bool :=
  w.all fun kv => kv.1.1 != "wal" || walEntryOK cfg kv

/-- The weaker shape used by checkpoint monotonicity: every WAL-partition row
carries its own row key in its `RowKey` field, as `_write_wal` guarantees. -/
def walWF (w : Store) : Bool :=
  w.all fun kv => kv.1.1 != "wal" || (dget? kv.2 "RowKey" == some kv.1.2)

/-- A record that does not collide with the reserved entity keys that
`_write_wal` and `_apply_insert` add around the payload. -/
def noReservedKeys (r : Dict) : Bool :=
  r.all fun kv => !(["PartitionKey", "RowKey", "operation"].contains kv.1)

/-- Order on observed checkpoints: `none` (never set) is below everything. -/
def cpLe : Option String → Option String → Prop
  | none, _ => True
  | some _, none => False
  | some a, some b => strLeB a b = true

instance (x y : Option String) : Decidable (cpLe x y) :=
  match x, y with
  | none, _ => .isTrue trivial
  | some _, none => .isFalse fun h => h
  | some a, some b => inferInstanceAs (Decidable (strLeB a b = true))

/-- A sequence of checkpoint-based recovery invocations (`start_time = None`),
each possibly facing different transient store faults. -/
def runRecoveries (cfg : Config) (s : CState) (envs : List (List SKey)) : CState :=
  envs.foldl (fun st faults => (recover cfg faults st none).1) s

/-! ## The executable comparators agree with the lexicographic string order -/

theorem charLtB_iff {c d : Char} : charLtB c d = true ↔ c < d := by
  simp only [charLtB, decide_eq_true_eq]
  exact gt_iff_lt

theorem charsLtB_iff : ∀ {l1 l2 : List Char},
    charsLtB l1 l2 = true ↔ List.Lex (· < ·) l1 l2 := by
  intro l1
  induction l1 with
  | nil =>
    intro l2
    cases l2 with
    | nil => simp [charsLtB]
    | cons d ds => simp [charsLtB]; exact List.Lex.nil
  | cons c cs ih =>
    intro l2
    cases l2 with
    | nil => simp [charsLtB]
    | cons d ds =>
      simp only [charsLtB, Bool.or_eq_true, Bool.and_eq_true, beq_iff_eq, ih, charLtB_iff]
      constructor
      · rintro (h | ⟨rfl, h⟩)
        · exact List.Lex.rel h
        · exact List.Lex.cons h
      · intro h
        cases h with
        | rel h => exact Or.inl h
        | cons h => exact Or.inr ⟨rfl, h⟩

theorem strLtB_iff {a b : String} : strLtB a b = true ↔ a < b := by
  rw [strLtB, charsLtB_iff, String.lt_iff_toList_lt]
  exact Iff.rfl

theorem strLeB_iff {a b : String} : strLeB a b = true ↔ a ≤ b := by
  rw [strLeB, Bool.not_eq_true', ← Bool.not_eq_true, strLtB_iff]
  exact not_lt

/-! ## String facts used by the key-codec proofs -/

theorem data_append (a b : String) : (a ++ b).data = a.data ++ b.data := rfl

theorem data_inj {a b : String} (h : a.data = b.data) : a = b :=
  congrArg String.mk h

theorem lex_append_left_iff {s a b : List Char} :
    List.Lex (· < ·) (s ++ a) (s ++ b) ↔ List.Lex (· < ·) a b := by
  induction s with
  | nil => exact Iff.rfl
  | cons c cs ih => simpa [List.cons_append, List.Lex.cons_iff] using ih

theorem not_lex_append_self : ∀ {s t : List Char}, ¬ List.Lex (· < ·) (s ++ t) s := by
  intro s
  induction s with
  | nil => intro t h; cases h
  | cons c cs ih =>
    intro t h
    cases h with
    | rel h => exact absurd h (lt_irrefl c)
    | cons h => exact ih h

theorem str_le_append (s t : String) : s ≤ s ++ t := by
  show ¬ s ++ t < s
  rw [String.lt_iff_toList_lt]
  exact fun h => not_lex_append_self h

/-! ## The decimal length prefix of `_partition_key` is injective -/

theorem natReprCore_ne_nil {fuel n : Nat} (h : 0 < fuel) : natReprCore fuel n ≠ [] := by
  match fuel with
  | f + 1 =>
    rw [natReprCore]
    split <;> simp

theorem decChar_inj {a b : Nat} (ha : a < 10) (hb : b < 10)
    (h : decChar a = decChar b) : a = b := by
  interval_cases a <;> interval_cases b <;> simp_all [decChar]

theorem decChar_toLower (d : Nat) : (decChar d).toLower = decChar d := by
  match d with
  | 0 => decide | 1 => decide | 2 => decide | 3 => decide | 4 => decide
  | 5 => decide | 6 => decide | 7 => decide | 8 => decide
  | _ + 9 => exact (by decide : Char.toLower '9' = '9')

theorem natReprCore_fuel_free :
    ∀ (f1 : Nat) {f2 n : Nat}, n < 10 ^ f1 → n < 10 ^ f2 → 0 < f1 → 0 < f2 →
      natReprCore f1 n = natReprCore f2 n := by
  intro f1
  induction f1 with
  | zero => omega
  | succ f ih =>
    intro f2 n h1 h2 hf1 hf2
    match f2, hf2 with
    | g + 1, _ =>
      by_cases hn : n < 10
      · simp [natReprCore, hn]
      · rw [natReprCore, natReprCore, if_neg hn, if_neg hn]
        have hf : 0 < f := by
          rcases Nat.eq_zero_or_pos f with rfl | h
          · simp at h1; omega
          · exact h
        have hg : 0 < g := by
          rcases Nat.eq_zero_or_pos g with rfl | h
          · simp at h2; omega
          · exact h
        have b1 : n / 10 < 10 ^ f := by
          rw [Nat.div_lt_iff_lt_mul (by omega)]
          calc n < 10 ^ (f + 1) := h1
            _ = 10 ^ f * 10 := by rw [Nat.pow_succ]
        have b2 : n / 10 < 10 ^ g := by
          rw [Nat.div_lt_iff_lt_mul (by omega)]
          calc n < 10 ^ (g + 1) := h2
            _ = 10 ^ g * 10 := by rw [Nat.pow_succ]
        rw [ih b1 b2 hf hg]

theorem natRepr_data {n f : Nat} (h : n < 10 ^ f) (hf : 0 < f) :
    (natRepr n).data = natReprCore f n := by
  have hh : n < 10 ^ (n + 1) := by
    have h1 : n < 10 ^ n := Nat.lt_pow_self (by omega) n
    exact lt_of_lt_of_le h1 (Nat.pow_le_pow_right (by omega) (Nat.le_succ n))
  exact natReprCore_fuel_free (n + 1) hh h (by omega) hf

theorem natReprCore_inj :
    ∀ (f1 : Nat) {f2 n1 n2 : Nat}, n1 < 10 ^ f1 → n2 < 10 ^ f2 → 0 < f1 → 0 < f2 →
      natReprCore f1 n1 = natReprCore f2 n2 → n1 = n2 := by
  intro f1
  induction f1 with
  | zero => omega
  | succ f ih =>
    intro f2 n1 n2 h1 h2 hf1 hf2 heq
    match f2, hf2 with
    | g + 1, _ =>
      rw [natReprCore, natReprCore] at heq
      by_cases ha : n1 < 10 <;> by_cases hb : n2 < 10
      · rw [if_pos ha, if_pos hb] at heq
        simp only [List.cons.injEq, and_true] at heq
        exact decChar_inj ha hb heq
      · rw [if_pos ha, if_neg hb] at heq
        exfalso
        have hg : 0 < g := by
          rcases Nat.eq_zero_or_pos g with rfl | h
          · simp at h2; omega
          · exact h
        have hne := @natReprCore_ne_nil g (n2 / 10) hg
        have hlen := congrArg List.length heq
        simp [List.length_append] at hlen
        cases hcore : natReprCore g (n2 / 10) with
        | nil => exact hne hcore
        | cons x xs => rw [hcore] at hlen; simp at hlen
      · rw [if_neg ha, if_pos hb] at heq
        exfalso
        have hf : 0 < f := by
          rcases Nat.eq_zero_or_pos f with rfl | h
          · simp at h1; omega
          · exact h
        have hne := @natReprCore_ne_nil f (n1 / 10) hf
        have hlen := congrArg List.length heq
        simp [List.length_append] at hlen
        cases hcore : natReprCore f (n1 / 10) with
        | nil => exact hne hcore
        | cons x xs => rw [hcore] at hlen; simp at hlen
      · rw [if_neg ha, if_neg hb] at heq
        have hf : 0 < f := by
          rcases Nat.eq_zero_or_pos f with rfl | h
          · simp at h1; omega
          · exact h
        have hg : 0 < g := by
          rcases Nat.eq_zero_or_pos g with rfl | h
          · simp at h2; omega
          · exact h
        have hrev := congrArg List.reverse heq
        simp only [List.reverse_append, List.reverse_cons, List.reverse_nil,
          List.nil_append, List.singleton_append, List.cons.injEq] at hrev
        obtain ⟨hdig, hcore⟩ := hrev
        have hmod : n1 % 10 = n2 % 10 := decChar_inj (by omega) (by omega) hdig
        have b1 : n1 / 10 < 10 ^ f := by
          rw [Nat.div_lt_iff_lt_mul (by omega)]
          calc n1 < 10 ^ (f + 1) := h1
            _ = 10 ^ f * 10 := by rw [Nat.pow_succ]
        have b2 : n2 / 10 < 10 ^ g := by
          rw [Nat.div_lt_iff_lt_mul (by omega)]
          calc n2 < 10 ^ (g + 1) := h2
            _ = 10 ^ g * 10 := by rw [Nat.pow_succ]
        have hdiv : n1 / 10 = n2 / 10 :=
          ih b1 b2 hf hg (List.reverse_injective hcore)
        omega

theorem natRepr_inj {n1 n2 : Nat} (h : natRepr n1 = natRepr n2) : n1 = n2 := by
  have hd : natReprCore (n1 + 1) n1 = natReprCore (n2 + 1) n2 := congrArg String.data h
  have b1 : n1 < 10 ^ (n1 + 1) := by
    have h1 : n1 < 10 ^ n1 := Nat.lt_pow_self (by omega) n1
    exact lt_of_lt_of_le h1 (Nat.pow_le_pow_right (by omega) (Nat.le_succ n1))
  have b2 : n2 < 10 ^ (n2 + 1) := by
    have h1 : n2 < 10 ^ n2 := Nat.lt_pow_self (by omega) n2
    exact lt_of_lt_of_le h1 (Nat.pow_le_pow_right (by omega) (Nat.le_succ n2))
  exact natReprCore_inj (n1 + 1) b1 b2 (by omega) (by omega) hd

theorem natReprCore_map_toLower (f : Nat) :
    ∀ n, (natReprCore f n).map Char.toLower = natReprCore f n := by
  induction f with
  | zero => intro n; rfl
  | succ f ih =>
    intro n
    rw [natReprCore]
    split
    · simp [decChar_toLower]
    · simp [List.map_append, ih, decChar_toLower]

theorem pyLower_data (s : String) : (pyLower s).data = s.data.map Char.toLower :=
  rfl

theorem toLower_underscore : Char.toLower '_' = '_' := by decide

/-- **C7.** For all pairs `(f1, v1) ≠ (f2, v2)` whose naive concatenations
`f1 ++ v1` and `f2 ++ v2` are equal strings, the length-prefixed encodings
`_partition_key(f1, v1)` and `_partition_key(f2, v2)` are different strings. -/
theorem c7_partition_key_collision_resistant
    (f1 v1 f2 v2 : String) (hne : (f1, v1) ≠ (f2, v2))
    (hcat : f1 ++ v1 = f2 ++ v2) :
    partition_key f1 v1 ≠ partition_key f2 v2 := by
  intro h
  have hdata : f1.data ++ v1.data = f2.data ++ v2.data := by
    have h0 := congrArg String.data hcat
    simpa [data_append] using h0
  have hd := congrArg String.data h
  simp only [partition_key, pyLower_data, data_append, List.map_append,
    List.map_cons, List.map_nil, toLower_underscore, List.append_assoc,
    List.cons_append, List.nil_append] at hd
  have hmapcat := congrArg (List.map Char.toLower) hdata
  simp only [List.map_append] at hmapcat
  rw [hmapcat] at hd
  have hcore : (natRepr f1.length).data.map Char.toLower =
      (natRepr f2.length).data.map Char.toLower := by
    have hlen := congrArg List.length hd
    simp only [List.length_append, List.length_cons, List.length_map] at hlen
    exact (List.append_inj hd (by simp only [List.length_map]; omega)).1
  have hrepr : natRepr f1.length = natRepr f2.length := by
    apply data_inj
    have e1 := natReprCore_map_toLower (f1.length + 1) f1.length
    have e2 := natReprCore_map_toLower (f2.length + 1) f2.length
    have d1 : (natRepr f1.length).data = natReprCore (f1.length + 1) f1.length := rfl
    have d2 : (natRepr f2.length).data = natReprCore (f2.length + 1) f2.length := rfl
    rw [d1, e1] at hcore
    rw [d2, e2] at hcore
    rw [d1, d2]
    exact hcore
  have hlen12 : f1.length = f2.length := natRepr_inj hrepr
  have hdlen : f1.data.length = f2.data.length := hlen12
  obtain ⟨hf, hv⟩ := List.append_inj hdata hdlen
  exact hne (by rw [data_inj hf, data_inj hv])

/-- Witness for C7 at the colliding pairs ("ab", "c") and ("a", "bc"). -/
theorem c7_witness :
    ("ab", "c") ≠ ("a", "bc") ∧ "ab" ++ "c" = "a" ++ "bc" ∧
      partition_key "ab" "c" ≠ partition_key "a" "bc" :=
  ⟨by decide, by decide,
    c7_partition_key_collision_resistant "ab" "c" "a" "bc" (by decide) (by decide)⟩

/-! ## Store lemmas -/

theorem storeGet?_put_self (s : Store) (k : SKey) (e : Dict) :
    storeGet? (storePut s k e) k = some e := by
  induction s with
  | nil => simp [storePut, storeGet?]
  | cons kv rest ih =>
    obtain ⟨k0, e0⟩ := kv
    rw [storePut]
    split_ifs with h1 h2
    · subst h1; simp [storeGet?]
    · simp [storeGet?]
    · rw [storeGet?, if_neg (fun hh => h1 hh.symm)]
      exact ih

theorem storeGet?_put_other (s : Store) (k k' : SKey) (e : Dict) (hne : k' ≠ k) :
    storeGet? (storePut s k e) k' = storeGet? s k' := by
  induction s with
  | nil =>
    simp only [storePut, storeGet?]
    rw [if_neg (fun h => hne h.symm)]
  | cons kv rest ih =>
    obtain ⟨k0, e0⟩ := kv
    rw [storePut]
    split_ifs with h1 h2
    · subst h1
      simp only [storeGet?]
      rw [if_neg (fun h => hne h.symm), if_neg (fun h => hne h.symm)]
    · simp only [storeGet?]
      rw [if_neg (fun h => hne h.symm)]
    · simp only [storeGet?]
      by_cases h0 : k0 = k'
      · rw [if_pos h0, if_pos h0]
      · rw [if_neg h0, if_neg h0]; exact ih

theorem storeGet?_erase_self (s : Store) (k : SKey) :
    storeGet? (storeErase s k) k = none := by
  induction s with
  | nil => rfl
  | cons kv rest ih =>
    obtain ⟨k0, e0⟩ := kv
    rw [storeErase, List.filter_cons]
    by_cases h : k0 = k
    · rw [if_neg (by simp [h])]
      exact ih
    · rw [if_pos (by simp [h])]
      show storeGet? ((k0, e0) :: storeErase rest k) k = none
      simp only [storeGet?]
      rw [if_neg h]
      exact ih

theorem storeGet?_erase_other (s : Store) (k k' : SKey) (hne : k' ≠ k) :
    storeGet? (storeErase s k) k' = storeGet? s k' := by
  induction s with
  | nil => rfl
  | cons kv rest ih =>
    obtain ⟨k0, e0⟩ := kv
    rw [storeErase, List.filter_cons]
    by_cases h : k0 = k
    · rw [if_neg (by simp [h])]
      show storeGet? (storeErase rest k) k' = storeGet? ((k0, e0) :: rest) k'
      rw [ih]
      subst h
      simp only [storeGet?]
      rw [if_neg (fun hh => hne hh.symm)]
    · rw [if_pos (by simp [h])]
      show storeGet? ((k0, e0) :: storeErase rest k) k' = storeGet? ((k0, e0) :: rest) k'
      simp only [storeGet?]
      by_cases h0 : k0 = k'
      · rw [if_pos h0, if_pos h0]
      · rw [if_neg h0, if_neg h0]; exact ih

theorem storeCreateF_nil (s : Store) (ent : Dict) :
    storeCreateF [] s ent =
      match storeGet? s (entKey ent) with
      | some _ => (s, some .alreadyExists)
      | none => (storePut s (entKey ent) ent, none) := by
  rw [storeCreateF, if_neg (List.not_mem_nil _)]

theorem storeDeleteF_nil (s : Store) (k : SKey) :
    storeDeleteF [] s k =
      match storeGet? s k with
      | none => (s, some .notFound)
      | some _ => (storeErase s k, none) := by
  rw [storeDeleteF, if_neg (List.not_mem_nil _)]

/-! ## Sorting and lookup helpers -/

theorem mem_insOrd {y x : String} :
    ∀ {l : List String}, y ∈ insOrd x l ↔ y = x ∨ y ∈ l := by
  intro l
  induction l with
  | nil => simp [insOrd]
  | cons z zs ih =>
    rw [insOrd]
    split_ifs with h
    · simp [List.mem_cons]
    · simp only [List.mem_cons, ih]
      tauto

theorem mem_pySorted {y : String} :
    ∀ {l : List String}, y ∈ pySorted l ↔ y ∈ l := by
  intro l
  induction l with
  | nil => simp [pySorted]
  | cons z zs ih =>
    show y ∈ insOrd z (pySorted zs) ↔ _
    rw [mem_insOrd, ih]
    simp [List.mem_cons]

theorem mapValues_isSome {record : Dict} :
    ∀ {keys : List String}, (∀ k ∈ keys, (dget? record k).isSome) →
      ∃ vs, mapValues record keys = some vs := by
  intro keys
  induction keys with
  | nil => exact fun _ => ⟨[], rfl⟩
  | cons k ks ih =>
    intro h
    obtain ⟨v, hv⟩ := Option.isSome_iff_exists.mp (h k (by simp))
    obtain ⟨vs, hvs⟩ := ih fun k2 hk2 => h k2 (by simp [hk2])
    exact ⟨v :: vs, by rw [mapValues, hv, hvs]⟩

theorem requiredPresent_iff {cfg : Config} {p : Dict} :
    requiredPresent cfg p = true ↔
      (∀ k ∈ cfg.index_keys, (dget? p k).isSome) ∧
        (dget? p cfg.row_key_field).isSome := by
  simp only [requiredPresent, List.all_eq_true, List.mem_append, List.mem_singleton]
  constructor
  · intro h
    exact ⟨fun k hk => h k (Or.inl hk), h _ (Or.inr rfl)⟩
  · rintro ⟨h1, h2⟩ k (hk | rfl)
    · exact h1 k hk
    · exact h2

theorem row_key_isSome {p : Dict} {keys : List String}
    (h : ∀ k ∈ keys, (dget? p k).isSome) (pv : String) :
    ∃ rk, row_key p pv keys = some rk := by
  obtain ⟨vs, hvs⟩ := @mapValues_isSome p (pySorted keys)
    fun k hk => h k (mem_pySorted.mp hk)
  exact ⟨_, by rw [row_key, hvs]⟩

/-! ## Behaviour of the fan-out loops under a healthy store (C2 groundwork) -/

theorem createLoop_err_none {payload : Dict} {rk : String} :
    ∀ {keys : List String} (t : Store),
      (∀ k ∈ keys, (dget? payload k).isSome) →
      (createLoop [] payload rk t keys).2 = none := by
  intro keys
  induction keys with
  | nil => intro t _; rfl
  | cons k rest ih =>
    intro t h
    obtain ⟨v, hv⟩ := Option.isSome_iff_exists.mp (h k (by simp))
    rw [createLoop]
    simp only [hv]
    rw [storeCreateF_nil]
    cases hx : storeGet? t (entKey (insEntity payload rk k v)) with
    | some e0 => exact ih t fun k2 hk2 => h k2 (by simp [hk2])
    | none => exact ih _ fun k2 hk2 => h k2 (by simp [hk2])

theorem createLoop_preserves {payload : Dict} {rk : String} :
    ∀ {keys : List String} (t : Store) (k0 : SKey) (d : Dict),
      storeGet? t k0 = some d →
      storeGet? (createLoop [] payload rk t keys).1 k0 = some d := by
  intro keys
  induction keys with
  | nil => intro t k0 d h; exact h
  | cons k rest ih =>
    intro t k0 d h
    rw [createLoop]
    cases hv : dget? payload k with
    | none => simp only; exact h
    | some v =>
      simp only
      rw [storeCreateF_nil]
      cases hx : storeGet? t (entKey (insEntity payload rk k v)) with
      | some e0 => exact ih t k0 d h
      | none =>
        apply ih
        by_cases hk : k0 = entKey (insEntity payload rk k v)
        · rw [hk] at h; rw [h] at hx; cases hx
        · rw [storeGet?_put_other _ _ _ _ hk]; exact h

theorem createLoop_establishes {payload : Dict} {rk : String} :
    ∀ {keys : List String} (t : Store),
      (∀ k2 ∈ keys, (dget? payload k2).isSome) →
      ∀ k ∈ keys, ∀ v, dget? payload k = some v →
        ∃ d, storeGet? (createLoop [] payload rk t keys).1
          (entKey (insEntity payload rk k v)) = some d := by
  intro keys
  induction keys with
  | nil => intro t _ k hk; cases hk
  | cons k1 rest ih =>
    intro t h k hk v hv
    obtain ⟨v1, hv1⟩ := Option.isSome_iff_exists.mp (h k1 (by simp))
    rw [createLoop]
    simp only [hv1]
    rw [storeCreateF_nil]
    rcases List.mem_cons.mp hk with rfl | hmem
    · rw [hv] at hv1
      obtain rfl := Option.some.inj hv1
      cases hx : storeGet? t (entKey (insEntity payload rk k v)) with
      | some e0 => exact ⟨e0, createLoop_preserves t _ e0 hx⟩
      | none =>
        refine ⟨insEntity payload rk k v, createLoop_preserves _ _ _ ?_⟩
        exact storeGet?_put_self t _ _
    · cases hx : storeGet? t (entKey (insEntity payload rk k1 v1)) with
      | some e0 => exact ih t (fun k2 hk2 => h k2 (by simp [hk2])) k hmem v hv
      | none => exact ih _ (fun k2 hk2 => h k2 (by simp [hk2])) k hmem v hv

theorem createLoop_absorbed {payload : Dict} {rk : String} :
    ∀ {keys : List String} (t : Store),
      (∀ k ∈ keys, (dget? payload k).isSome) →
      (∀ k ∈ keys, ∀ v, dget? payload k = some v →
        (storeGet? t (entKey (insEntity payload rk k v))).isSome) →
      createLoop [] payload rk t keys = (t, none) := by
  intro keys
  induction keys with
  | nil => intro t _ _; rfl
  | cons k rest ih =>
    intro t h hocc
    obtain ⟨v, hv⟩ := Option.isSome_iff_exists.mp (h k (by simp))
    obtain ⟨d, hd⟩ := Option.isSome_iff_exists.mp (hocc k (by simp) v hv)
    rw [createLoop]
    simp only [hv]
    rw [storeCreateF_nil, hd]
    exact ih t (fun k2 hk2 => h k2 (by simp [hk2]))
      (fun k2 hk2 => hocc k2 (by simp [hk2]))

theorem deleteLoop_err_none {payload : Dict} {rk : String} :
    ∀ {keys : List String} (t : Store),
      (∀ k ∈ keys, (dget? payload k).isSome) →
      (deleteLoop [] payload rk t keys).2 = none := by
  intro keys
  induction keys with
  | nil => intro t _; rfl
  | cons k rest ih =>
    intro t h
    obtain ⟨v, hv⟩ := Option.isSome_iff_exists.mp (h k (by simp))
    rw [deleteLoop]
    simp only [hv]
    rw [storeDeleteF_nil]
    cases hx : storeGet? t (partition_key k v, rk) with
    | none => exact ih t fun k2 hk2 => h k2 (by simp [hk2])
    | some e0 => exact ih _ fun k2 hk2 => h k2 (by simp [hk2])

theorem deleteLoop_keeps_absent {payload : Dict} {rk : String} :
    ∀ {keys : List String} (t : Store) (k0 : SKey),
      storeGet? t k0 = none →
      storeGet? (deleteLoop [] payload rk t keys).1 k0 = none := by
  intro keys
  induction keys with
  | nil => intro t k0 h; exact h
  | cons k rest ih =>
    intro t k0 h
    rw [deleteLoop]
    cases hv : dget? payload k with
    | none => simp only; exact h
    | some v =>
      simp only
      rw [storeDeleteF_nil]
      cases hx : storeGet? t (partition_key k v, rk) with
      | none => exact ih t k0 h
      | some e0 =>
        apply ih
        by_cases hk : k0 = (partition_key k v, rk)
        · rw [hk]; exact storeGet?_erase_self t _
        · rw [storeGet?_erase_other _ _ _ hk]; exact h

theorem deleteLoop_establishes {payload : Dict} {rk : String} :
    ∀ {keys : List String} (t : Store),
      (∀ k2 ∈ keys, (dget? payload k2).isSome) →
      ∀ k ∈ keys, ∀ v, dget? payload k = some v →
        storeGet? (deleteLoop [] payload rk t keys).1 (partition_key k v, rk) = none := by
  intro keys
  induction keys with
  | nil => intro t _ k hk; cases hk
  | cons k1 rest ih =>
    intro t h k hk v hv
    obtain ⟨v1, hv1⟩ := Option.isSome_iff_exists.mp (h k1 (by simp))
    rw [deleteLoop]
    simp only [hv1]
    rw [storeDeleteF_nil]
    rcases List.mem_cons.mp hk with rfl | hmem
    · rw [hv] at hv1
      obtain rfl := Option.some.inj hv1
      cases hx : storeGet? t (partition_key k v, rk) with
      | none => exact deleteLoop_keeps_absent t _ hx
      | some e0 => exact deleteLoop_keeps_absent _ _ (storeGet?_erase_self t _)
    · cases hx : storeGet? t (partition_key k1 v1, rk) with
      | none => exact ih t (fun k2 hk2 => h k2 (by simp [hk2])) k hmem v hv
      | some e0 => exact ih _ (fun k2 hk2 => h k2 (by simp [hk2])) k hmem v hv

theorem deleteLoop_absent_noop {payload : Dict} {rk : String} :
    ∀ {keys : List String} (t : Store),
      (∀ k ∈ keys, (dget? payload k).isSome) →
      (∀ k ∈ keys, ∀ v, dget? payload k = some v →
        storeGet? t (partition_key k v, rk) = none) →
      deleteLoop [] payload rk t keys = (t, none) := by
  intro keys
  induction keys with
  | nil => intro t _ _; rfl
  | cons k rest ih =>
    intro t h habs
    obtain ⟨v, hv⟩ := Option.isSome_iff_exists.mp (h k (by simp))
    rw [deleteLoop]
    simp only [hv]
    rw [storeDeleteF_nil, habs k (by simp) v hv]
    exact ih t (fun k2 hk2 => h k2 (by simp [hk2]))
      (fun k2 hk2 => habs k2 (by simp [hk2]))

theorem apply_insert_eq {cfg : Config} {p : Dict} {pv rk : String}
    (hpv : dget? p cfg.row_key_field = some pv)
    (hrk : row_key p pv cfg.index_keys = some rk) (faults : List SKey) (t : Store) :
    apply_insert cfg faults t p = createLoop faults p rk t cfg.index_keys := by
  rw [apply_insert, hpv]
  simp only [hrk]

theorem apply_delete_eq {cfg : Config} {p : Dict} {pv rk : String}
    (hpv : dget? p cfg.row_key_field = some pv)
    (hrk : row_key p pv cfg.index_keys = some rk) (faults : List SKey) (t : Store) :
    apply_delete cfg faults t p = deleteLoop faults p rk t cfg.index_keys := by
  rw [apply_delete, hpv]
  simp only [hrk]

/-- **C2.** For every payload carrying all schema fields: applying an insert
whose index-partition entries already exist does not raise and leaves every
pre-existing entry untouched (no duplicate, no payload merge), applying a
delete whose target entries are absent does not raise, and applying the same
insert (or the same delete) twice leaves the index store in the same state as
applying it once. -/
theorem c2_idempotent_apply (cfg : Config) (t : Store) (p : Dict)
    (hp : requiredPresent cfg p = true) :
    (apply_insert cfg [] t p).2 = none ∧
    (∀ k d, storeGet? t k = some d →
      storeGet? (apply_insert cfg [] t p).1 k = some d) ∧
    apply_insert cfg [] (apply_insert cfg [] t p).1 p =
      ((apply_insert cfg [] t p).1, none) ∧
    (apply_delete cfg [] t p).2 = none ∧
    apply_delete cfg [] (apply_delete cfg [] t p).1 p =
      ((apply_delete cfg [] t p).1, none) := by
  obtain ⟨hidx, hpvs⟩ := requiredPresent_iff.mp hp
  obtain ⟨pv, hpv⟩ := Option.isSome_iff_exists.mp hpvs
  obtain ⟨rk, hrk⟩ := row_key_isSome hidx pv
  refine ⟨?_, ?_, ?_, ?_, ?_⟩
  · rw [apply_insert_eq hpv hrk [] t]
    exact createLoop_err_none t hidx
  · intro k d h
    rw [apply_insert_eq hpv hrk [] t]
    exact createLoop_preserves t k d h
  · rw [apply_insert_eq hpv hrk [] t,
      apply_insert_eq hpv hrk [] ((createLoop [] p rk t cfg.index_keys).1)]
    apply createLoop_absorbed _ hidx
    intro k hk v hv
    obtain ⟨d, hd⟩ := createLoop_establishes t hidx k hk v hv
    rw [hd]; rfl
  · rw [apply_delete_eq hpv hrk [] t]
    exact deleteLoop_err_none t hidx
  · rw [apply_delete_eq hpv hrk [] t,
      apply_delete_eq hpv hrk [] ((deleteLoop [] p rk t cfg.index_keys).1)]
    apply deleteLoop_absent_noop _ hidx
    intro k hk v hv
    exact deleteLoop_establishes t hidx k hk v hv

/-- Witness for C2 at a concrete schema, payload and empty store. -/
theorem c2_witness :
    requiredPresent ⟨["email"], "userId"⟩ [("userId", "u1"), ("email", "a")] = true ∧
      (apply_insert ⟨["email"], "userId"⟩ [] []
        [("userId", "u1"), ("email", "a")]).2 = none :=
  ⟨by decide,
    (c2_idempotent_apply ⟨["email"], "userId"⟩ []
      [("userId", "u1"), ("email", "a")] (by decide)).1⟩

/-- **C1.** The round-trip claim fails on the code: with schema
`index_keys = ["email"]`, primary field `userId`, inserting the record
`{"userId": "u1", "email": "a"}` into a fresh catalog succeeds and the query
`{"email": "a"}` finds one row, but the returned payload is the record plus a
leaked `"operation": "insert"` pair, which is not dict-equal to the record:
`recover` strips only the Azure metadata keys from the WAL entity before
applying it, leaving the operation tag inside the indexed payload. -/
theorem c1_roundtrip_operation_leak :
    (insert ⟨["email"], "userId"⟩ ⟨[], []⟩
        [("userId", "u1"), ("email", "a")] "t1").2 =
      .ok [("userId", "u1"), ("email", "a")] ∧
    query ⟨["email"], "userId"⟩
        (insert ⟨["email"], "userId"⟩ ⟨[], []⟩
          [("userId", "u1"), ("email", "a")] "t1").1
        [("email", "a")] none none =
      .ok [[("operation", "insert"), ("userId", "u1"), ("email", "a")]] ∧
    dBeq [("operation", "insert"), ("userId", "u1"), ("email", "a")]
      [("userId", "u1"), ("email", "a")] = false := by
  exact ⟨by decide, by decide, by decide⟩

/-- **C10.** A WAL entry whose operation tag is neither `insert` nor `delete`
leaves the index table untouched while the checkpoint is still advanced to its
identifier, and a WAL row whose identifier is at most the scan start is never
returned by the recovery scan again. -/
theorem c10_unknown_op_skipped (cfg : Config) (faults : List SKey) (s : CState)
    (orphan : Dict) (rest : List Dict) (op rid : String)
    (hop : dget? orphan "operation" = some op)
    (hins : op ≠ "insert") (hdel : op ≠ "delete")
    (hrid : dget? orphan "RowKey" = some rid) :
    recoverLoop cfg faults s (orphan :: rest) =
      recoverLoop cfg faults ⟨s.table, storeUpsert s.wal (checkpointEntity rid)⟩ rest ∧
    readCheckpoint (storeUpsert s.wal (checkpointEntity rid)) = some rid ∧
    (∀ (w : Store) (start : String) (d : Dict), strLeB rid start = true →
      (("wal", rid), d) ∉ walScanPairs w start) := by
  refine ⟨?_, ?_, ?_⟩
  · rw [recoverLoop]
    simp only [hop]
    rw [entryEffect, if_neg hins, if_neg hdel]
    simp only [hrid]
  · show (storeGet? (storePut s.wal ("metadata", "checkpoint")
      (checkpointEntity rid)) ("metadata", "checkpoint")).bind
        (fun e => dget? e "datetime") = some rid
    rw [storeGet?_put_self]
    rfl
  · intro w start d hle hmem
    have hp := (List.mem_filter.mp hmem).2
    simp only [Bool.and_eq_true] at hp
    rw [strLeB, hp.2] at hle
    cases hle

/-! ## Checkpoint monotonicity machinery (C4) -/

theorem strLtB_irrefl (a : String) : strLtB a a = false := by
  rw [Bool.eq_false_iff]
  intro h
  exact lt_irrefl a (strLtB_iff.mp h)

theorem strLeB_refl (a : String) : strLeB a a = true := by
  rw [strLeB, strLtB_irrefl]
  rfl

theorem strLeB_of_ltB {a b : String} (h : strLtB a b = true) : strLeB a b = true := by
  rw [strLeB, Bool.not_eq_true']
  rw [Bool.eq_false_iff]
  intro h2
  exact lt_asymm (strLtB_iff.mp h) (strLtB_iff.mp h2)

theorem strLeB_trans {a b c : String} (h1 : strLeB a b = true)
    (h2 : strLeB b c = true) : strLeB a c = true :=
  strLeB_iff.mpr (le_trans (strLeB_iff.mp h1) (strLeB_iff.mp h2))

theorem cpLe_refl (x : Option String) : cpLe x x := by
  cases x with
  | none => exact trivial
  | some a => exact strLeB_refl a

theorem cpLe_trans {x y z : Option String} (h1 : cpLe x y) (h2 : cpLe y z) :
    cpLe x z := by
  cases x with
  | none => exact trivial
  | some a =>
    cases y with
    | none => cases h1
    | some b =>
      cases z with
      | none => cases h2
      | some c => exact strLeB_trans h1 h2

theorem mem_storePut {s : Store} {k : SKey} {e : Dict} :
    ∀ kv ∈ storePut s k e, kv = (k, e) ∨ kv ∈ s := by
  induction s with
  | nil => intro kv hkv; simpa [storePut] using hkv
  | cons kv0 rest ih =>
    obtain ⟨k0, e0⟩ := kv0
    intro kv hkv
    rw [storePut] at hkv
    split_ifs at hkv with h1 h2
    · rcases List.mem_cons.mp hkv with rfl | hm
      · exact Or.inl rfl
      · exact Or.inr (by simp [hm])
    · rcases List.mem_cons.mp hkv with rfl | hm
      · exact Or.inl rfl
      · exact Or.inr hm
    · rcases List.mem_cons.mp hkv with rfl | hm
      · exact Or.inr (by simp)
      · rcases ih kv hm with h | h
        · exact Or.inl h
        · exact Or.inr (by simp [h])

theorem walWF_iff {w : Store} :
    walWF w = true ↔
      ∀ kv ∈ w, kv.1.1 = "wal" → dget? kv.2 "RowKey" = some kv.1.2 := by
  simp only [walWF, List.all_eq_true, Bool.or_eq_true, bne_iff_ne, beq_iff_eq]
  constructor
  · intro h kv hkv hwal
    rcases h kv hkv with h1 | h1
    · exact absurd hwal h1
    · exact h1
  · intro h kv hkv
    by_cases hwal : kv.1.1 = "wal"
    · exact Or.inr (h kv hkv hwal)
    · exact Or.inl hwal

theorem readCheckpoint_upsert (w : Store) (rid : String) :
    readCheckpoint (storeUpsert w (checkpointEntity rid)) = some rid := by
  show (storeGet? (storePut w ("metadata", "checkpoint") (checkpointEntity rid))
    ("metadata", "checkpoint")).bind (fun e => dget? e "datetime") = some rid
  rw [storeGet?_put_self]
  rfl

theorem walWF_upsert_checkpoint {w : Store} (hwf : walWF w = true) (rid : String) :
    walWF (storeUpsert w (checkpointEntity rid)) = true := by
  rw [walWF_iff] at hwf ⊢
  intro kv hkv hwal
  rcases mem_storePut kv hkv with rfl | hmem
  · exact absurd (show "metadata" = "wal" from hwal) (by decide)
  · exact hwf kv hmem hwal

theorem recoverLoop_walWF (cfg : Config) (faults : List SKey) :
    ∀ (L : List Dict) (s : CState), walWF s.wal = true →
      walWF ((recoverLoop cfg faults s L).1).wal = true := by
  intro L
  induction L with
  | nil => intro s h; exact h
  | cons orphan rest ih =>
    intro s h
    rw [recoverLoop]
    cases hop : dget? orphan "operation" with
    | none => exact h
    | some op =>
      simp only
      cases heff : entryEffect cfg faults s.table orphan op with
      | mk t err =>
        cases err with
        | some e => exact h
        | none =>
          simp only
          cases hrk : dget? orphan "RowKey" with
          | none => exact h
          | some rid => exact ih _ (walWF_upsert_checkpoint h rid)

theorem recoverLoop_checkpoint_cases (cfg : Config) (faults : List SKey)
    (start : String) :
    ∀ (L : List Dict) (s : CState),
      (∀ d ∈ L, ∀ r, dget? d "RowKey" = some r → strLtB start r = true) →
      readCheckpoint ((recoverLoop cfg faults s L).1).wal = readCheckpoint s.wal ∨
      (∃ r, readCheckpoint ((recoverLoop cfg faults s L).1).wal = some r ∧
        strLtB start r = true) := by
  intro L
  induction L with
  | nil => intro s _; exact Or.inl rfl
  | cons orphan rest ih =>
    intro s h
    rw [recoverLoop]
    cases hop : dget? orphan "operation" with
    | none => exact Or.inl rfl
    | some op =>
      simp only
      cases heff : entryEffect cfg faults s.table orphan op with
      | mk t err =>
        cases err with
        | some e => exact Or.inl rfl
        | none =>
          simp only
          cases hrk : dget? orphan "RowKey" with
          | none => exact Or.inl rfl
          | some rid =>
            have hlt : strLtB start rid = true := h orphan (by simp) rid hrk
            rcases ih ⟨t, storeUpsert s.wal (checkpointEntity rid)⟩
                (fun d hd r hr => h d (by simp [hd]) r hr) with heq | ⟨r, hr, hrlt⟩
            · refine Or.inr ⟨rid, ?_, hlt⟩
              rw [heq]
              exact readCheckpoint_upsert s.wal rid
            · exact Or.inr ⟨r, hr, hrlt⟩

theorem recover_checkpoint_monotone (cfg : Config) (faults : List SKey)
    (s : CState) (hwf : walWF s.wal = true) :
    cpLe (readCheckpoint s.wal)
      (readCheckpoint ((recover cfg faults s none).1).wal) := by
  rw [recover]
  cases hcp : readCheckpoint s.wal with
  | none => exact trivial
  | some c =>
    have hstart : resolveStart s.wal none = c := by
      rw [resolveStart, hcp]; rfl
    rw [hstart]
    have hhyp : ∀ d ∈ walScan s.wal c, ∀ r,
        dget? d "RowKey" = some r → strLtB c r = true := by
      intro d hd r hr
      obtain ⟨kv, hkv, rfl⟩ := List.mem_map.mp hd
      have hmem := List.mem_filter.mp hkv
      simp only [Bool.and_eq_true, beq_iff_eq] at hmem
      have hwf2 := walWF_iff.mp hwf kv hmem.1 hmem.2.1
      rw [hwf2] at hr
      obtain rfl := Option.some.inj hr
      exact hmem.2.2
    rcases recoverLoop_checkpoint_cases cfg faults c (walScan s.wal c) s hhyp with
      heq | ⟨r, hr, hlt⟩
    · rw [heq, hcp]
      exact strLeB_refl c
    · rw [hr]
      exact strLeB_of_ltB hlt

theorem recover_walWF (cfg : Config) (faults : List SKey) (s : CState)
    (hwf : walWF s.wal = true) (start_time : Option String) :
    walWF ((recover cfg faults s start_time).1).wal = true := by
  rw [recover]
  exact recoverLoop_walWF cfg faults _ s hwf

/-- **C4 (counterexample).** The checkpoint can move backward: after a full
recovery has advanced the checkpoint to `t2`, a later `recover` invocation
that passes an explicit early `start_time` re-scans the log from the start,
overwrites the checkpoint with `t1` while replaying the first entry, and a
transient store failure on the second entry then aborts it, leaving the
checkpoint durably at `t1 < t2`. -/
theorem c4_checkpoint_regression_cex :
    readCheckpoint ((recover ⟨["email"], "userId"⟩ [] ⟨[],
        [(("wal", "t1"), [("PartitionKey", "wal"), ("RowKey", "t1"),
            ("operation", "insert"), ("userId", "u1"), ("email", "a")]),
          (("wal", "t2"), [("PartitionKey", "wal"), ("RowKey", "t2"),
            ("operation", "insert"), ("userId", "u2"), ("email", "b")])]⟩
        none).1).wal = some "t2" ∧
    readCheckpoint ((recover ⟨["email"], "userId"⟩
        [(partition_key "email" "b", "u2:" ++ fingerprint "b")]
        ((recover ⟨["email"], "userId"⟩ [] ⟨[],
          [(("wal", "t1"), [("PartitionKey", "wal"), ("RowKey", "t1"),
              ("operation", "insert"), ("userId", "u1"), ("email", "a")]),
            (("wal", "t2"), [("PartitionKey", "wal"), ("RowKey", "t2"),
              ("operation", "insert"), ("userId", "u2"), ("email", "b")])]⟩
          none).1)
        (some "1900-01-01")).1).wal = some "t1" ∧
    strLtB "t1" "t2" = true := by
  exact ⟨by decide, by decide, by decide⟩

/-- **C4 (amended).** Restricted to recovery invocations that omit
`start_time` and so resume from the stored checkpoint: across every such
sequence, under arbitrary transient store faults, the checkpoint identifier
is non-decreasing (in particular it is never moved back to or before an entry
it has passed).  An invocation given an explicit earlier `start_time` can
move it backward, as the counterexample shows. -/
theorem c4_checkpoint_monotone_amended (cfg : Config) (envs : List (List SKey))
    (s : CState) (hwf : walWF s.wal = true) :
    cpLe (readCheckpoint s.wal) (readCheckpoint (runRecoveries cfg s envs).wal) := by
  induction envs generalizing s with
  | nil => exact cpLe_refl _
  | cons f fs ih =>
    show cpLe _ (readCheckpoint (runRecoveries cfg ((recover cfg f s none).1) fs).wal)
    exact cpLe_trans (recover_checkpoint_monotone cfg f s hwf)
      (ih _ (recover_walWF cfg f s hwf none))

/-- Witness for the amended C4 at a one-entry WAL and one fault-free recovery. -/
theorem c4_amended_witness :
    walWF [(("wal", "t1"), [("PartitionKey", "wal"), ("RowKey", "t1"),
        ("operation", "insert"), ("userId", "u1"), ("email", "a")])] = true ∧
      cpLe (readCheckpoint [(("wal", "t1"), [("PartitionKey", "wal"),
          ("RowKey", "t1"), ("operation", "insert"), ("userId", "u1"),
          ("email", "a")])])
        (readCheckpoint (runRecoveries ⟨["email"], "userId"⟩ ⟨[],
          [(("wal", "t1"), [("PartitionKey", "wal"), ("RowKey", "t1"),
            ("operation", "insert"), ("userId", "u1"), ("email", "a")])]⟩
          [[]]).wal) :=
  ⟨by decide,
    c4_checkpoint_monotone_amended ⟨["email"], "userId"⟩ [[]] ⟨[],
      [(("wal", "t1"), [("PartitionKey", "wal"), ("RowKey", "t1"),
        ("operation", "insert"), ("userId", "u1"), ("email", "a")])]⟩ (by decide)⟩

/-! ## Query validation (C5) -/

theorem single_query_ok_mem {cfg : Config} {s : CState} {f v : String}
    {rf rt : Option String} {l : List Dict}
    (h : single_query cfg s f v rf rt = .ok l) : f ∈ cfg.index_keys := by
  by_cases hc : cfg.index_keys.contains f = true
  · exact List.elem_iff.mp hc
  · rw [single_query.eq_def, if_neg hc] at h
    exact Except.noConfusion h

theorem queryRest_ok_mem (cfg : Config) (s : CState) (rf rt : Option String) :
    ∀ (rest : List (String × String)) (results l : List Dict),
      queryRest cfg s rf rt rest results = .ok l → l ≠ [] →
      ∀ fv ∈ rest, fv.1 ∈ cfg.index_keys := by
  intro rest
  induction rest with
  | nil => intro results l _ _ fv hfv; cases hfv
  | cons fv0 rest ih =>
    obtain ⟨f, v⟩ := fv0
    intro results l h hne fv hfv
    rw [queryRest] at h
    by_cases hres : results.isEmpty
    · rw [if_pos hres] at h
      obtain rfl := Except.ok.inj h
      exact absurd (List.isEmpty_iff.mp hres) hne
    · rw [if_neg hres] at h
      cases hq : single_query cfg s f v rf rt with
      | error e => simp only [hq] at h; exact Except.noConfusion h
      | ok hits =>
        simp only [hq] at h
        rcases List.mem_cons.mp hfv with rfl | hmem
        · exact single_query_ok_mem hq
        · exact ih _ l h hne fv hmem

/-- **C5 (counterexample).** An empty filter raises `StopIteration` from
`next(items)`, not the `EmptyFilter` validation `ValueError`; and a filter
whose unknown field appears after a predicate that matched nothing returns
`[]` without any error, because the intersection loop breaks before
validating the remaining fields. -/
theorem c5_validation_cex :
    query ⟨["email"], "userId"⟩ ⟨[], []⟩
        [("email", "nobody"), ("bogus", "x")] none none = .ok [] ∧
    query ⟨["email"], "userId"⟩ ⟨[], []⟩ [] none none =
      .error .stopIteration := by
  exact ⟨by decide, by decide⟩

/-- **C5 (amended).** For every filter: a filter with zero entries fails (with
`StopIteration`, not a validation error); an unknown field in the first
position always fails with the `UnknownField` validation error; and a later
unknown field fails only when it is reached with a non-empty running result —
equivalently, any query that succeeds with a non-empty result list had every
filter field inside the schema's index-key set. -/
theorem c5_query_validation_amended (cfg : Config) (s : CState)
    (rf rt : Option String) :
    query cfg s [] rf rt = .error .stopIteration ∧
    (∀ f v rest, f ∉ cfg.index_keys →
      query cfg s ((f, v) :: rest) rf rt = .error (.unknownField f)) ∧
    (∀ filter l, query cfg s filter rf rt = .ok l → l ≠ [] →
      ∀ fv ∈ filter, fv.1 ∈ cfg.index_keys) := by
  refine ⟨rfl, ?_, ?_⟩
  · intro f v rest h
    rw [query, single_query.eq_def, if_neg (fun hc => h (List.elem_iff.mp hc))]
  · intro filter l h hne fv hfv
    match filter, hfv with
    | (f, v) :: rest, hfv =>
      rw [query] at h
      cases hq : single_query cfg s f v rf rt with
      | error e => rw [hq] at h; exact Except.noConfusion h
      | ok results =>
        rw [hq] at h
        rcases List.mem_cons.mp hfv with rfl | hmem
        · exact single_query_ok_mem hq
        · exact queryRest_ok_mem cfg s rf rt rest results l h hne fv hmem

/-- Witness for the amended C5: the unknown first field "bogus". -/
theorem c5_amended_witness :
    ("bogus" ∉ ["email"]) ∧
      query ⟨["email"], "userId"⟩ ⟨[], []⟩ [("bogus", "x")] none none =
        .error (.unknownField "bogus") :=
  ⟨by decide,
    (c5_query_validation_amended ⟨["email"], "userId"⟩ ⟨[], []⟩ none none).2.1
      "bogus" "x" [] (by decide)⟩

/-! ## Fan-out consistency (C8) -/

theorem dget?_dset_self (d : Dict) (k v : String) :
    dget? (dset d k v) k = some v := by
  induction d with
  | nil => simp [dset, dget?]
  | cons kv rest ih =>
    obtain ⟨k0, v0⟩ := kv
    rw [dset]
    split_ifs with h
    · simp [dget?]
    · rw [dget?, if_neg h]
      exact ih

theorem dget?_dset_other (d : Dict) (k k' v : String) (hne : k' ≠ k) :
    dget? (dset d k v) k' = dget? d k' := by
  induction d with
  | nil =>
    simp only [dset, dget?]
    rw [if_neg (fun h => hne h.symm)]
  | cons kv rest ih =>
    obtain ⟨k0, v0⟩ := kv
    rw [dset]
    split_ifs with h
    · subst h
      simp only [dget?]
      rw [if_neg (fun h => hne h.symm), if_neg (fun h => hne h.symm)]
    · simp only [dget?]
      by_cases h0 : k0 = k'
      · rw [if_pos h0, if_pos h0]
      · rw [if_neg h0, if_neg h0]; exact ih

theorem dunion_cons (d : Dict) (k v : String) (rest : Dict) :
    dunion d ((k, v) :: rest) = dunion (dset d k v) rest :=
  rfl

theorem dget?_dunion_of_not_mem (k : String) :
    ∀ (upd d : Dict), dget? upd k = none →
      dget? (dunion d upd) k = dget? d k := by
  intro upd
  induction upd with
  | nil => intro d _; rfl
  | cons kv rest ih =>
    obtain ⟨k0, v0⟩ := kv
    intro d h
    rw [dget?] at h
    by_cases h0 : k0 = k
    · rw [if_pos h0] at h; cases h
    · rw [if_neg h0] at h
      rw [dunion_cons, ih _ h, dget?_dset_other _ _ _ _ (fun hh => h0 hh.symm)]

theorem insEntity_key {p : Dict} (hPK : dget? p "PartitionKey" = none)
    (hRK : dget? p "RowKey" = none) (rk k v : String) :
    entKey (insEntity p rk k v) = (partition_key k v, rk) := by
  rw [entKey, insEntity]
  rw [dget?_dunion_of_not_mem _ _ _ hPK, dget?_dunion_of_not_mem _ _ _ hRK]
  rfl

theorem storePut_length_absent (s : Store) (k : SKey) (e : Dict)
    (h : storeGet? s k = none) :
    (storePut s k e).length = s.length + 1 := by
  induction s with
  | nil => rfl
  | cons kv rest ih =>
    obtain ⟨k0, e0⟩ := kv
    rw [storeGet?] at h
    rw [storePut]
    split_ifs with h1 h2
    · rw [if_pos h1.symm] at h; cases h
    · simp
    · rw [if_neg (fun hh => h1 hh.symm)] at h
      simp [ih h]

theorem mapValues_eq_map (record : Dict) :
    ∀ (keys : List String), (∀ k ∈ keys, (dget? record k).isSome) →
      mapValues record keys =
        some (keys.map fun k => (dget? record k).getD "") := by
  intro keys
  induction keys with
  | nil => intro _; rfl
  | cons k rest ih =>
    intro h
    obtain ⟨v, hv⟩ := Option.isSome_iff_exists.mp (h k (by simp))
    rw [mapValues, hv, ih (fun k2 hk2 => h k2 (by simp [hk2]))]
    simp [hv]

theorem createLoop_fresh {p : Dict} {rk : String}
    (hPK : dget? p "PartitionKey" = none) (hRK : dget? p "RowKey" = none) :
    ∀ (keys : List String) (t : Store),
      (∀ k ∈ keys, (dget? p k).isSome) →
      (∀ k ∈ keys, ∀ v, dget? p k = some v →
        storeGet? t (partition_key k v, rk) = none) →
      (keys.map fun k => partition_key k ((dget? p k).getD "")).Nodup →
      (createLoop [] p rk t keys).2 = none ∧
      (createLoop [] p rk t keys).1.length = t.length + keys.length ∧
      (∀ k ∈ keys, ∀ v, dget? p k = some v →
        storeGet? (createLoop [] p rk t keys).1 (partition_key k v, rk) =
          some (insEntity p rk k v)) := by
  intro keys
  induction keys with
  | nil =>
    intro t _ _ _
    exact ⟨rfl, rfl, fun k hk => absurd hk (List.not_mem_nil k)⟩
  | cons k rest ih =>
    intro t hpres hemp hnd
    obtain ⟨v, hv⟩ := Option.isSome_iff_exists.mp (hpres k (by simp))
    have hkey := insEntity_key hPK hRK rk k v
    have habs : storeGet? t (entKey (insEntity p rk k v)) = none := by
      rw [hkey]; exact hemp k (by simp) v hv
    rw [createLoop]
    simp only [hv]
    rw [storeCreateF_nil, habs]
    simp only [List.map_cons, List.nodup_cons] at hnd
    have hvd : (dget? p k).getD "" = v := by rw [hv]; rfl
    have hrest_emp : ∀ k2 ∈ rest, ∀ v2, dget? p k2 = some v2 →
        storeGet? (storePut t (entKey (insEntity p rk k v)) (insEntity p rk k v))
          (partition_key k2 v2, rk) = none := by
      intro k2 hk2 v2 hv2
      have hpkne : partition_key k2 v2 ≠ partition_key k v := by
        intro hpk
        apply hnd.1
        refine List.mem_map.mpr ⟨k2, hk2, ?_⟩
        rw [hv2, hvd]
        exact hpk
      rw [storeGet?_put_other _ _ _ _ (by rw [hkey]; intro hh; exact hpkne (congrArg Prod.fst hh))]
      exact hemp k2 (by simp [hk2]) v2 hv2
    obtain ⟨herr, hlen, hocc⟩ := ih
      (storePut t (entKey (insEntity p rk k v)) (insEntity p rk k v))
      (fun k2 hk2 => hpres k2 (by simp [hk2])) hrest_emp hnd.2
    refine ⟨herr, ?_, ?_⟩
    · rw [hlen, storePut_length_absent t _ _ habs]
      simp [Nat.add_assoc, Nat.add_comm 1]
    · intro k2 hk2 v2 hv2
      rcases List.mem_cons.mp hk2 with rfl | hmem
      · rw [hv] at hv2
        obtain rfl := Option.some.inj hv2
        rw [← hkey]
        exact createLoop_preserves _ _ _ (storeGet?_put_self t _ _)
      · exact hocc k2 hmem v2 hv2

/-- **C8 (counterexample).** With index-key fields "A" and "a" and the record
`{"A": "x", "a": "x", "id": "u"}`, both fields normalise to the partition key
"1_ax", so a successful insert-apply against an empty store creates one
physical entry, not `|index_keys| = 2`. -/
theorem c8_fanout_cex :
    (apply_insert ⟨["A", "a"], "id"⟩ [] []
        [("A", "x"), ("a", "x"), ("id", "u")]).2 = none ∧
    (apply_insert ⟨["A", "a"], "id"⟩ [] []
        [("A", "x"), ("a", "x"), ("id", "u")]).1.length = 1 ∧
    partition_key "A" "x" = partition_key "a" "x" := by
  exact ⟨by decide, by decide, by decide⟩

/-- **C8 (amended).** For every payload carrying all schema fields and no
reserved storage keys, whose insert is applied successfully against an empty
set of matching entries, and whose index-key fields derive pairwise-distinct
partition keys: exactly one index-partition entry is created per index-key
field (`|index_keys|` new physical rows in total), and all of them are stored
under the same content key, the primary value joined with the fingerprint of
the sorted, lower-cased index-key values.  When partition keys coincide
(case-folded field names with equal values, or duplicated fields), the
colliding creates are swallowed as `AlreadyExists` and fewer rows remain, as
the counterexample shows. -/
theorem c8_fanout_amended (cfg : Config) (t : Store) (p : Dict) (pv rk : String)
    (hpv : dget? p cfg.row_key_field = some pv)
    (hrk : row_key p pv cfg.index_keys = some rk)
    (hPK : dget? p "PartitionKey" = none) (hRK : dget? p "RowKey" = none)
    (hidx : ∀ k ∈ cfg.index_keys, (dget? p k).isSome)
    (hemp : ∀ k ∈ cfg.index_keys, ∀ v, dget? p k = some v →
      storeGet? t (partition_key k v, rk) = none)
    (hdist : (cfg.index_keys.map fun k => partition_key k ((dget? p k).getD "")).Nodup) :
    (apply_insert cfg [] t p).2 = none ∧
    (apply_insert cfg [] t p).1.length = t.length + cfg.index_keys.length ∧
    (∀ k ∈ cfg.index_keys, ∀ v, dget? p k = some v →
      storeGet? (apply_insert cfg [] t p).1 (partition_key k v, rk) =
        some (insEntity p rk k v)) ∧
    rk = pv ++ ":" ++ fingerprint (joinPipe ((pySorted cfg.index_keys).map
      fun k => pyLower ((dget? p k).getD ""))) := by
  obtain ⟨herr, hlen, hocc⟩ := createLoop_fresh hPK hRK cfg.index_keys t hidx hemp hdist
  rw [apply_insert_eq hpv hrk [] t]
  refine ⟨herr, hlen, hocc, ?_⟩
  rw [row_key, mapValues_eq_map p _ fun k hk => hidx k (mem_pySorted.mp hk)] at hrk
  simp only [List.map_map] at hrk
  exact (Option.some.inj hrk).symm

/-- Witness for the amended C8 at a two-field schema. -/
theorem c8_amended_witness :
    (apply_insert ⟨["email", "team"], "userId"⟩ [] []
        [("userId", "u1"), ("email", "a"), ("team", "eng")]).2 = none ∧
    (apply_insert ⟨["email", "team"], "userId"⟩ [] []
        [("userId", "u1"), ("email", "a"), ("team", "eng")]).1.length = 0 + 2 :=
  have h := c8_fanout_amended ⟨["email", "team"], "userId"⟩ []
    [("userId", "u1"), ("email", "a"), ("team", "eng")] "u1"
    ("u1:" ++ fingerprint "a|eng")
    (by decide) (by decide) (by decide) (by decide)
    (by decide) (by decide) (by decide)
  ⟨h.1, h.2.1⟩

/-! ## Row bounds (C6) -/

theorem leBytes_length : ∀ (k n : Nat), (leBytes k n).length = k := by
  intro k
  induction k with
  | zero => intro n; rfl
  | succ k ih => intro n; simp [leBytes, ih]

theorem toHexDigit_le (n : Nat) : toHexDigit n ≤ 'f' := by
  match n with
  | 0 => decide | 1 => decide | 2 => decide | 3 => decide | 4 => decide
  | 5 => decide | 6 => decide | 7 => decide | 8 => decide | 9 => decide
  | 10 => decide | 11 => decide | 12 => decide | 13 => decide | 14 => decide
  | _ + 15 => exact (by decide : ('f' : Char) ≤ 'f')

theorem mem_md5HexChars_le {m : List Nat} {c : Char}
    (h : c ∈ md5HexChars m) : c ≤ 'f' := by
  rw [md5HexChars] at h
  obtain ⟨l, hl, hc⟩ := List.mem_flatten.mp h
  obtain ⟨b, _, rfl⟩ := List.mem_map.mp hl
  rcases List.mem_cons.mp hc with rfl | hc2
  · exact toHexDigit_le _
  · rcases List.mem_cons.mp hc2 with rfl | hc3
    · exact toHexDigit_le _
    · cases hc3

theorem md5Digest_length (msg : List Nat) : (md5Digest msg).length = 16 := by
  rw [md5Digest]
  simp [List.length_append, leBytes_length]

theorem fingerprint_ne_nil (w : String) : (fingerprint w).data ≠ [] := by
  show (md5HexChars (strBytes w)).take 8 ≠ []
  have hlen := md5Digest_length (strBytes w)
  cases hh : md5HexChars (strBytes w) with
  | nil =>
    exfalso
    rw [md5HexChars] at hh
    cases hd : md5Digest (strBytes w) with
    | nil => rw [hd] at hlen; cases hlen
    | cons b rest => rw [hd] at hh; simp [List.flatten_cons] at hh
  | cons c rest => simp

theorem fingerprint_chars_le {w : String} {c : Char}
    (h : c ∈ (fingerprint w).data) : c ≤ 'f' :=
  mem_md5HexChars_le (List.take_subset 8 _ h)

theorem strLeB_prefix_lower (a b : String) : strLeB a (a ++ b) = true :=
  strLeB_iff.mpr (str_le_append a b)

theorem strLeB_fingerprint_upper (pv w : String) :
    strLeB (pv ++ ":" ++ fingerprint w) (pv ++ ":z") = true := by
  rw [strLeB, Bool.not_eq_true', Bool.eq_false_iff]
  intro hlt
  rw [strLtB, charsLtB_iff] at hlt
  have h1 : (pv ++ ":z").data = pv.data ++ [':', 'z'] := rfl
  have h2 : (pv ++ ":" ++ fingerprint w).data =
      pv.data ++ (':' :: (fingerprint w).data) := by
    rw [data_append, data_append, List.append_assoc]
    rfl
  rw [h1, h2] at hlt
  have hlex2 := lex_append_left_iff.mp hlt
  cases hF : (fingerprint w).data with
  | nil => exact fingerprint_ne_nil w hF
  | cons c rest =>
    rw [hF] at hlex2
    have hc : c ≤ 'f' := fingerprint_chars_le (by rw [hF]; simp)
    cases hlex2 with
    | rel h => exact absurd h (lt_irrefl ':')
    | cons h =>
      cases h with
      | rel h => exact absurd h (lt_asymm (lt_of_le_of_lt hc (by decide)))
      | cons h2 => exact absurd hc (by decide)

theorem query_singleton (cfg : Config) (s : CState) (f v : String)
    (rf rt : Option String) :
    query cfg s [(f, v)] rf rt = single_query cfg s f v rf rt := by
  rw [query]
  cases hq : single_query cfg s f v rf rt with
  | error e => rfl
  | ok r => rfl

/-- **C6 (counterexample).** Bounds are lower-cased but stored primary values
are not: with the record `{"userId": "U1", "email": "a"}` inserted, a query
on its partition bounded by `rowFrom = rowTo = "U1"` returns `[]`, although
the stored row's primary-value portion equals `rowFrom` and the row is
returned without bounds.  The scan compares `"U1:..." < "u1:"`. -/
theorem c6_bounds_case_cex :
    (storeGet? (insert ⟨["email"], "userId"⟩ ⟨[], []⟩
        [("userId", "U1"), ("email", "a")] "t1").1.table
      (partition_key "email" "a", "U1:" ++ fingerprint "a")).isSome = true ∧
    query ⟨["email"], "userId"⟩
        (insert ⟨["email"], "userId"⟩ ⟨[], []⟩
          [("userId", "U1"), ("email", "a")] "t1").1
        [("email", "a")] (some "U1") (some "U1") = .ok [] ∧
    query ⟨["email"], "userId"⟩
        (insert ⟨["email"], "userId"⟩ ⟨[], []⟩
          [("userId", "U1"), ("email", "a")] "t1").1
        [("email", "a")] none none =
      .ok [[("operation", "insert"), ("userId", "U1"), ("email", "a")]] := by
  exact ⟨by decide, by decide, by decide⟩

/-- **C6 (amended).** For a single-predicate query with both bounds given, the
returned rows are exactly the stored rows of the scanned partition whose full
content key lies, in code-point order, between `lower(rowFrom) ++ ":"`
(inclusive) and `lower(rowTo) ++ ":z"` (inclusive), with storage metadata
stripped; a stored row whose primary-value portion equals the lower-cased
bound satisfies the corresponding endpoint on both ends (its fingerprint is
lowercase hex, below `z`).  A row whose primary value differs from the bound
only by case can be excluded, as the counterexample shows. -/
theorem c6_row_bounds_amended (cfg : Config) (s : CState) (f v : String)
    (hf : f ∈ cfg.index_keys) (rf rt : String) (hrf : rf ≠ "") (hrt : rt ≠ "") :
    query cfg s [(f, v)] (some rf) (some rt) =
      .ok ((s.table.filter fun kv =>
        kv.1.1 == partition_key f v &&
        strLeB (pyLower rf ++ ":") kv.1.2 &&
        strLeB kv.1.2 (pyLower rt ++ ":z")).map fun kv => entity_to_payload kv.2) ∧
    (∀ w : String,
      strLeB (pyLower rf ++ ":") (pyLower rf ++ ":" ++ fingerprint w) = true) ∧
    (∀ pv w : String,
      strLeB (pv ++ ":" ++ fingerprint w) (pv ++ ":z") = true) := by
  refine ⟨?_, ?_, ?_⟩
  · rw [query_singleton, single_query.eq_def, if_pos (List.elem_iff.mpr hf)]
    simp only [hrf, hrt, ite_false, if_false]
  · intro w
    exact strLeB_prefix_lower (pyLower rf ++ ":") (fingerprint w)
  · intro pv w
    exact strLeB_fingerprint_upper pv w

/-- Witness for the amended C6 at a concrete schema and bounds. -/
theorem c6_amended_witness :
    ("email" ∈ ["email"]) ∧ ("u1" : String) ≠ "" ∧
      strLeB (pyLower "u1" ++ ":") (pyLower "u1" ++ ":" ++ fingerprint "a") = true :=
  ⟨by decide, by decide,
    (c6_row_bounds_amended ⟨["email"], "userId"⟩ ⟨[], []⟩ "email" "a"
      (by decide) "u1" "u1" (by decide) (by decide)).2.1 "a"⟩

/-! ## Replay failure atomicity (C3) -/

theorem recoverLoop_append_ok (cfg : Config) (faults : List SKey) :
    ∀ (pre : List Dict) (s s1 : CState) (rest : List Dict),
      recoverLoop cfg faults s pre = (s1, none) →
      recoverLoop cfg faults s (pre ++ rest) = recoverLoop cfg faults s1 rest := by
  intro pre
  induction pre with
  | nil =>
    intro s s1 rest h
    obtain rfl := congrArg Prod.fst h
    rfl
  | cons d pre ih =>
    intro s s1 rest h
    rw [recoverLoop] at h
    rw [List.cons_append, recoverLoop]
    cases hop : dget? d "operation" with
    | none => rw [hop] at h; simp at h
    | some op =>
      rw [hop] at h
      simp only at h ⊢
      cases heff : entryEffect cfg faults s.table d op with
      | mk t err =>
        rw [heff] at h
        cases err with
        | some e => simp at h
        | none =>
          simp only at h ⊢
          cases hrk : dget? d "RowKey" with
          | none => rw [hrk] at h; simp at h
          | some rid =>
            rw [hrk] at h
            exact ih _ s1 rest h

theorem recoverLoop_checkpoint_last (cfg : Config) (faults : List SKey) :
    ∀ (L : List Dict) (s s1 : CState) (E : Dict) (rid : String),
      recoverLoop cfg faults s (L ++ [E]) = (s1, none) →
      dget? E "RowKey" = some rid →
      readCheckpoint s1.wal = some rid := by
  intro L
  induction L with
  | nil =>
    intro s s1 E rid h hrid
    rw [List.nil_append, recoverLoop] at h
    cases hop : dget? E "operation" with
    | none => rw [hop] at h; simp at h
    | some op =>
      rw [hop] at h
      simp only at h
      cases heff : entryEffect cfg faults s.table E op with
      | mk t err =>
        rw [heff] at h
        cases err with
        | some e => simp at h
        | none =>
          simp only at h
          rw [hrid] at h
          obtain rfl := congrArg Prod.fst h
          exact readCheckpoint_upsert s.wal rid
  | cons d L ih =>
    intro s s1 E rid h hrid
    rw [List.cons_append, recoverLoop] at h
    cases hop : dget? d "operation" with
    | none => rw [hop] at h; simp at h
    | some op =>
      rw [hop] at h
      simp only at h
      cases heff : entryEffect cfg faults s.table d op with
      | mk t err =>
        rw [heff] at h
        cases err with
        | some e => simp at h
        | none =>
          simp only at h
          cases hrk : dget? d "RowKey" with
          | none => rw [hrk] at h; simp at h
          | some rid2 =>
            rw [hrk] at h
            exact ih _ s1 E rid h hrid

/-- **C3.** If, while recovery is applying WAL entry `E`, the backing store
raises an error that the apply loops do not swallow (anything other than
`AlreadyExists` during insert-apply / `NotFound` during delete-apply, here a
`keyError` or `storeService` surfaced by `entryEffect`), then recovery stops
at `E` and returns that failure, the index table keeps the effects of the
entries before `E` (plus `E`'s own partial fan-out), the WAL table — hence
the checkpoint — is exactly as the prefix left it, so the checkpoint is not
advanced to or past `E` and still names the last entry applied before `E`. -/
theorem c3_replay_failure_atomicity (cfg : Config) (faults : List SKey)
    (s : CState) (start_time : Option String) (pre post : List Dict)
    (E : Dict) (op : String) (s1 : CState) (t2 : Store) (err : AppErr)
    (hscan : walScan s.wal (resolveStart s.wal start_time) = pre ++ E :: post)
    (hpre : recoverLoop cfg faults s pre = (s1, none))
    (hop : dget? E "operation" = some op)
    (heff : entryEffect cfg faults s1.table E op = (t2, some err)) :
    recover cfg faults s start_time = (⟨t2, s1.wal⟩, some err) ∧
    readCheckpoint (recover cfg faults s start_time).1.wal =
      readCheckpoint s1.wal ∧
    (∀ (pre2 : List Dict) (Elast : Dict) (rid : String),
      pre = pre2 ++ [Elast] → dget? Elast "RowKey" = some rid →
      readCheckpoint (recover cfg faults s start_time).1.wal = some rid) := by
  have hmain : recover cfg faults s start_time = (⟨t2, s1.wal⟩, some err) := by
    rw [recover, hscan, recoverLoop_append_ok cfg faults pre s s1 _ hpre,
      recoverLoop, hop]
    simp only [heff]
  refine ⟨hmain, by rw [hmain], ?_⟩
  intro pre2 Elast rid hpre2 hrid
  rw [hmain]
  exact recoverLoop_checkpoint_last cfg faults pre2 s s1 Elast rid
    (hpre2 ▸ hpre) hrid

/-- Witness for C3: two logged inserts, the second hitting a faulty cell. -/
theorem c3_witness :
    walScan
        [(("wal", "t1"), [("PartitionKey", "wal"), ("RowKey", "t1"),
            ("operation", "insert"), ("userId", "u1"), ("email", "a")]),
          (("wal", "t2"), [("PartitionKey", "wal"), ("RowKey", "t2"),
            ("operation", "insert"), ("userId", "u2"), ("email", "b")])]
        (resolveStart
          [(("wal", "t1"), [("PartitionKey", "wal"), ("RowKey", "t1"),
              ("operation", "insert"), ("userId", "u1"), ("email", "a")]),
            (("wal", "t2"), [("PartitionKey", "wal"), ("RowKey", "t2"),
              ("operation", "insert"), ("userId", "u2"), ("email", "b")])]
          none) =
      [[("PartitionKey", "wal"), ("RowKey", "t1"), ("operation", "insert"),
          ("userId", "u1"), ("email", "a")]] ++
        [("PartitionKey", "wal"), ("RowKey", "t2"), ("operation", "insert"),
          ("userId", "u2"), ("email", "b")] :: [] ∧
    recover ⟨["email"], "userId"⟩
        [(partition_key "email" "b", "u2:" ++ fingerprint "b")]
        ⟨[], [(("wal", "t1"), [("PartitionKey", "wal"), ("RowKey", "t1"),
            ("operation", "insert"), ("userId", "u1"), ("email", "a")]),
          (("wal", "t2"), [("PartitionKey", "wal"), ("RowKey", "t2"),
            ("operation", "insert"), ("userId", "u2"), ("email", "b")])]⟩
        none =
      (⟨(entryEffect ⟨["email"], "userId"⟩
          [(partition_key "email" "b", "u2:" ++ fingerprint "b")]
          (recoverLoop ⟨["email"], "userId"⟩
            [(partition_key "email" "b", "u2:" ++ fingerprint "b")]
            ⟨[], [(("wal", "t1"), [("PartitionKey", "wal"), ("RowKey", "t1"),
                ("operation", "insert"), ("userId", "u1"), ("email", "a")]),
              (("wal", "t2"), [("PartitionKey", "wal"), ("RowKey", "t2"),
                ("operation", "insert"), ("userId", "u2"), ("email", "b")])]⟩
            [[("PartitionKey", "wal"), ("RowKey", "t1"),
              ("operation", "insert"), ("userId", "u1"), ("email", "a")]]).1.table
          [("PartitionKey", "wal"), ("RowKey", "t2"), ("operation", "insert"),
            ("userId", "u2"), ("email", "b")]
          "insert").1,
        (recoverLoop ⟨["email"], "userId"⟩
          [(partition_key "email" "b", "u2:" ++ fingerprint "b")]
          ⟨[], [(("wal", "t1"), [("PartitionKey", "wal"), ("RowKey", "t1"),
              ("operation", "insert"), ("userId", "u1"), ("email", "a")]),
            (("wal", "t2"), [("PartitionKey", "wal"), ("RowKey", "t2"),
              ("operation", "insert"), ("userId", "u2"), ("email", "b")])]⟩
          [[("PartitionKey", "wal"), ("RowKey", "t1"),
            ("operation", "insert"), ("userId", "u1"), ("email", "a")]]).1.wal⟩,
        some .storeService) :=
  ⟨by decide,
    (c3_replay_failure_atomicity ⟨["email"], "userId"⟩
      [(partition_key "email" "b", "u2:" ++ fingerprint "b")]
      ⟨[], [(("wal", "t1"), [("PartitionKey", "wal"), ("RowKey", "t1"),
          ("operation", "insert"), ("userId", "u1"), ("email", "a")]),
        (("wal", "t2"), [("PartitionKey", "wal"), ("RowKey", "t2"),
          ("operation", "insert"), ("userId", "u2"), ("email", "b")])]⟩
      none
      [[("PartitionKey", "wal"), ("RowKey", "t1"), ("operation", "insert"),
        ("userId", "u1"), ("email", "a")]]
      []
      [("PartitionKey", "wal"), ("RowKey", "t2"), ("operation", "insert"),
        ("userId", "u2"), ("email", "b")]
      "insert"
      (recoverLoop ⟨["email"], "userId"⟩
        [(partition_key "email" "b", "u2:" ++ fingerprint "b")]
        ⟨[], [(("wal", "t1"), [("PartitionKey", "wal"), ("RowKey", "t1"),
            ("operation", "insert"), ("userId", "u1"), ("email", "a")]),
          (("wal", "t2"), [("PartitionKey", "wal"), ("RowKey", "t2"),
            ("operation", "insert"), ("userId", "u2"), ("email", "b")])]⟩
        [[("PartitionKey", "wal"), ("RowKey", "t1"),
          ("operation", "insert"), ("userId", "u1"), ("email", "a")]]).1
      (entryEffect ⟨["email"], "userId"⟩
        [(partition_key "email" "b", "u2:" ++ fingerprint "b")]
        (recoverLoop ⟨["email"], "userId"⟩
          [(partition_key "email" "b", "u2:" ++ fingerprint "b")]
          ⟨[], [(("wal", "t1"), [("PartitionKey", "wal"), ("RowKey", "t1"),
              ("operation", "insert"), ("userId", "u1"), ("email", "a")]),
            (("wal", "t2"), [("PartitionKey", "wal"), ("RowKey", "t2"),
              ("operation", "insert"), ("userId", "u2"), ("email", "b")])]⟩
          [[("PartitionKey", "wal"), ("RowKey", "t1"),
            ("operation", "insert"), ("userId", "u1"), ("email", "a")]]).1.table
        [("PartitionKey", "wal"), ("RowKey", "t2"), ("operation", "insert"),
          ("userId", "u2"), ("email", "b")]
        "insert").1
      .storeService
      (by decide) (by decide) (by decide) (by decide)).1⟩

/-! ## Insert contract (C9) groundwork -/

theorem dget?_eq_none_of_not_mem_keys {d : Dict} {k : String}
    (h : k ∉ d.map Prod.fst) : dget? d k = none := by
  induction d with
  | nil => rfl
  | cons kv rest ih =>
    obtain ⟨k0, v0⟩ := kv
    simp only [List.map_cons, List.mem_cons] at h
    push_neg at h
    rw [dget?, if_neg (fun hh => h.1 hh.symm)]
    exact ih h.2

theorem dget?_some_mem {d : Dict} {k v : String} (h : dget? d k = some v) :
    (k, v) ∈ d := by
  induction d with
  | nil => cases h
  | cons kv rest ih =>
    obtain ⟨k0, v0⟩ := kv
    rw [dget?] at h
    by_cases h0 : k0 = k
    · rw [if_pos h0] at h
      obtain rfl := Option.some.inj h
      simp [h0]
    · rw [if_neg h0] at h
      simp [ih h]

theorem dget?_dunion_right {k v : String} :
    ∀ (upd d : Dict), (upd.map Prod.fst).Nodup → dget? upd k = some v →
      dget? (dunion d upd) k = some v := by
  intro upd
  induction upd with
  | nil => intro d _ h; cases h
  | cons kv rest ih =>
    obtain ⟨k0, v0⟩ := kv
    intro d hnd h
    simp only [List.map_cons, List.nodup_cons] at hnd
    rw [dget?] at h
    rw [dunion_cons]
    by_cases h0 : k0 = k
    · rw [if_pos h0] at h
      obtain rfl := Option.some.inj h
      have hrest : dget? rest k = none :=
        dget?_eq_none_of_not_mem_keys (h0 ▸ hnd.1)
      rw [dget?_dunion_of_not_mem _ _ _ hrest, h0]
      exact dget?_dset_self d k v0
    · rw [if_neg h0] at h
      exact ih _ hnd.2 h

theorem dget?_entity_to_payload {e : Dict} {k : String}
    (hk : k ∉ ["PartitionKey", "RowKey", "Timestamp", "etag"]) :
    dget? (entity_to_payload e) k = dget? e k := by
  induction e with
  | nil => rfl
  | cons kv rest ih =>
    obtain ⟨k0, v0⟩ := kv
    rw [entity_to_payload, List.filter_cons]
    by_cases h0 : k0 ∈ ["PartitionKey", "RowKey", "Timestamp", "etag"]
    · rw [if_neg (by simp [h0])]
      rw [dget?, if_neg (fun hh => hk (by rw [← hh]; exact h0))]
      exact ih
    · rw [if_pos (by simp [h0])]
      show dget? ((k0, v0) :: entity_to_payload rest) k = dget? ((k0, v0) :: rest) k
      rw [dget?, dget?]
      by_cases hk0 : k0 = k
      · rw [if_pos hk0, if_pos hk0]
      · rw [if_neg hk0, if_neg hk0]
        exact ih

theorem walEntryOK_unpack {cfg : Config} {kv : SKey × Dict}
    (h : walEntryOK cfg kv = true) :
    dget? kv.2 "RowKey" = some kv.1.2 ∧
    (∃ op, dget? kv.2 "operation" = some op) ∧
    (dget? kv.2 "operation" = some "insert" ∨
        dget? kv.2 "operation" = some "delete" →
      requiredPresent cfg (entity_to_payload kv.2) = true) := by
  rw [walEntryOK, Bool.and_eq_true, beq_iff_eq] at h
  obtain ⟨h1, h2⟩ := h
  refine ⟨h1, ?_, ?_⟩
  · cases hop : dget? kv.2 "operation" with
    | none => rw [hop] at h2; cases h2
    | some op => exact ⟨op, rfl⟩
  · intro hc
    cases hop : dget? kv.2 "operation" with
    | none => rw [hop] at h2; cases h2
    | some op =>
      rw [hop] at h2
      rcases hc with hc | hc <;> rw [hop] at hc <;>
        obtain rfl := Option.some.inj hc <;> simpa using h2

theorem walOK_spec {cfg : Config} {w : Store} (h : walOK cfg w = true)
    {kv : SKey × Dict} (hm : kv ∈ w) (hw : kv.1.1 = "wal") :
    walEntryOK cfg kv = true := by
  rw [walOK, List.all_eq_true] at h
  have h2 := h kv hm
  rw [Bool.or_eq_true, bne_iff_ne] at h2
  rcases h2 with h1 | h1
  · exact absurd hw h1
  · exact h1

theorem entryEffect_err_none {cfg : Config} {t : Store} {orphan : Dict}
    {op : String}
    (hreq : op = "insert" ∨ op = "delete" →
      requiredPresent cfg (entity_to_payload orphan) = true) :
    (entryEffect cfg [] t orphan op).2 = none := by
  rw [entryEffect]
  by_cases hi : op = "insert"
  · rw [if_pos hi]
    obtain ⟨hidx, hpvs⟩ := requiredPresent_iff.mp (hreq (Or.inl hi))
    obtain ⟨pv, hpv⟩ := Option.isSome_iff_exists.mp hpvs
    obtain ⟨rk, hrk⟩ := row_key_isSome hidx pv
    rw [apply_insert_eq hpv hrk [] t]
    exact createLoop_err_none t hidx
  · rw [if_neg hi]
    by_cases hd : op = "delete"
    · rw [if_pos hd]
      obtain ⟨hidx, hpvs⟩ := requiredPresent_iff.mp (hreq (Or.inr hd))
      obtain ⟨pv, hpv⟩ := Option.isSome_iff_exists.mp hpvs
      obtain ⟨rk, hrk⟩ := row_key_isSome hidx pv
      rw [apply_delete_eq hpv hrk [] t]
      exact deleteLoop_err_none t hidx
    · rw [if_neg hd]

theorem recoverLoop_noerror (cfg : Config) :
    ∀ (L : List Dict) (s : CState),
      (∀ d ∈ L, (∃ op, dget? d "operation" = some op) ∧
        (∃ r, dget? d "RowKey" = some r) ∧
        (dget? d "operation" = some "insert" ∨
            dget? d "operation" = some "delete" →
          requiredPresent cfg (entity_to_payload d) = true)) →
      (recoverLoop cfg [] s L).2 = none := by
  intro L
  induction L with
  | nil => intro s _; rfl
  | cons d L ih =>
    intro s h
    obtain ⟨⟨op, hop⟩, ⟨r, hr⟩, hreq⟩ := h d (by simp)
    rw [recoverLoop, hop]
    simp only
    cases heff : entryEffect cfg [] s.table d op with
    | mk t err =>
      have herr : err = none := by
        have h2 := @entryEffect_err_none cfg s.table d op
          (fun hc => hreq (hc.imp (fun hh => by rw [hop, hh])
            (fun hh => by rw [hop, hh])))
        rw [heff] at h2
        exact h2
      subst herr
      simp only
      rw [hr]
      exact ih _ fun d2 hd2 => h d2 (by simp [hd2])

theorem recoverLoop_wal_get (cfg : Config) (faults : List SKey) :
    ∀ (L : List Dict) (s : CState) (k : SKey), k.1 = "wal" →
      storeGet? ((recoverLoop cfg faults s L).1).wal k = storeGet? s.wal k := by
  intro L
  induction L with
  | nil => intro s k _; rfl
  | cons d L ih =>
    intro s k hk
    rw [recoverLoop]
    cases hop : dget? d "operation" with
    | none => rfl
    | some op =>
      simp only
      cases heff : entryEffect cfg faults s.table d op with
      | mk t err =>
        cases err with
        | some e => rfl
        | none =>
          simp only
          cases hrk : dget? d "RowKey" with
          | none => rfl
          | some rid =>
            rw [ih ⟨t, storeUpsert s.wal (checkpointEntity rid)⟩ k hk]
            show storeGet? (storePut s.wal ("metadata", "checkpoint")
              (checkpointEntity rid)) k = storeGet? s.wal k
            apply storeGet?_put_other
            intro heq
            rw [heq] at hk
            exact absurd hk (by decide)

theorem storePut_filter_other (w : Store) (k : SKey) (e : Dict)
    (hk : k.1 ≠ "wal") :
    (storePut w k e).filter (fun kv => kv.1.1 == "wal") =
      w.filter (fun kv => kv.1.1 == "wal") := by
  induction w with
  | nil =>
    rw [storePut, List.filter_cons]
    rw [if_neg (by simp [hk])]
  | cons kv0 rest ih =>
    obtain ⟨k0, e0⟩ := kv0
    rw [storePut]
    split_ifs with h1 h2
    · subst h1
      rw [List.filter_cons, List.filter_cons]
      rw [if_neg (by simp [hk]), if_neg (by simp [hk])]
    · rw [List.filter_cons]
      rw [if_neg (by simp [hk])]
    · rw [List.filter_cons, List.filter_cons]
      by_cases h0 : k0.1 = "wal"
      · rw [if_pos (by simp [h0]), if_pos (by simp [h0]), ih]
      · rw [if_neg (by simp [h0]), if_neg (by simp [h0]), ih]

theorem recoverLoop_filter_wal (cfg : Config) (faults : List SKey) :
    ∀ (L : List Dict) (s : CState),
      ((recoverLoop cfg faults s L).1).wal.filter (fun kv => kv.1.1 == "wal") =
        s.wal.filter (fun kv => kv.1.1 == "wal") := by
  intro L
  induction L with
  | nil => intro s; rfl
  | cons d L ih =>
    intro s
    rw [recoverLoop]
    cases hop : dget? d "operation" with
    | none => rfl
    | some op =>
      simp only
      cases heff : entryEffect cfg faults s.table d op with
      | mk t err =>
        cases err with
        | some e => rfl
        | none =>
          simp only
          cases hrk : dget? d "RowKey" with
          | none => rfl
          | some rid =>
            rw [ih ⟨t, storeUpsert s.wal (checkpointEntity rid)⟩]
            show (storePut s.wal ("metadata", "checkpoint")
                (checkpointEntity rid)).filter (fun kv => kv.1.1 == "wal") =
              s.wal.filter (fun kv => kv.1.1 == "wal")
            exact storePut_filter_other s.wal ("metadata", "checkpoint")
              (checkpointEntity rid) (by decide)

theorem storePut_filter_wal_absent (txId : String) (e : Dict) :
    ∀ (w : Store), storeGet? w ("wal", txId) = none →
      ((storePut w ("wal", txId) e).filter (fun kv => kv.1.1 == "wal")).length =
        (w.filter (fun kv => kv.1.1 == "wal")).length + 1 := by
  intro w
  induction w with
  | nil =>
    intro _
    rw [storePut, List.filter_cons]
    rw [if_pos (by simp)]
    rfl
  | cons kv0 rest ih =>
    obtain ⟨k0, e0⟩ := kv0
    intro habs
    rw [storeGet?] at habs
    rw [storePut]
    split_ifs with h1 h2
    · rw [if_pos h1.symm] at habs; cases habs
    · rw [List.filter_cons]
      rw [if_pos (show (((("wal", txId), e) : SKey × Dict).1.1 == "wal") = true from rfl)]
      simp
    · rw [if_neg (fun hh => h1 hh.symm)] at habs
      rw [List.filter_cons, List.filter_cons]
      by_cases h0 : k0.1 = "wal"
      · rw [if_pos (by simp [h0]), if_pos (by simp [h0])]
        simp [ih habs]
      · rw [if_neg (by simp [h0]), if_neg (by simp [h0])]
        exact ih habs

theorem noReservedKeys_get {record : Dict} (h : noReservedKeys record = true)
    {k : String} (hk : k ∈ ["PartitionKey", "RowKey", "operation"]) :
    dget? record k = none := by
  cases hv : dget? record k with
  | none => rfl
  | some v =>
    exfalso
    rw [noReservedKeys, List.all_eq_true] at h
    have h2 := h (k, v) (dget?_some_mem hv)
    rw [Bool.not_eq_eq_eq_not, Bool.not_true] at h2
    have h2b : (["PartitionKey", "RowKey", "operation"] : List String).contains k
        = false := h2
    have h3 : (["PartitionKey", "RowKey", "operation"] : List String).contains k
        = true := List.elem_iff.mpr hk
    exact Bool.false_ne_true (h2b ▸ h3)

/-- **C9 (counterexample).** A record that itself carries an `operation` field
subverts the WAL tag: `{"PartitionKey": "wal", "RowKey": txId, "operation":
"insert", **record}` lets the record's `"operation": "delete"` override the
tag, so the appended WAL entry is not insert-tagged — recovery then applies
it as a delete and the index table stays empty. -/
theorem c9_insert_reserved_key_cex :
    (insert ⟨["email"], "userId"⟩ ⟨[], []⟩
        [("userId", "u1"), ("email", "a"), ("operation", "delete")] "t1").2 =
      .ok [("userId", "u1"), ("email", "a"), ("operation", "delete")] ∧
    (storeGet? (insert ⟨["email"], "userId"⟩ ⟨[], []⟩
        [("userId", "u1"), ("email", "a"), ("operation", "delete")] "t1").1.wal
        ("wal", "t1")).bind (fun e => dget? e "operation") = some "delete" ∧
    (insert ⟨["email"], "userId"⟩ ⟨[], []⟩
        [("userId", "u1"), ("email", "a"), ("operation", "delete")] "t1").1.table
      = [] := by
  exact ⟨by decide, by decide, by decide⟩

/-- **C9 (amended).** `insert` validates that every index-key field and the
primary field is present, failing with a `MissingFields` error that names
exactly the absent required fields and writing nothing; otherwise — provided
the record does not use the reserved entity keys (`PartitionKey`, `RowKey`,
`operation`, which the counterexample shows would corrupt the entry), the
schema fields avoid the stripped metadata names, the WAL rows are well-formed
and the generated id is fresh — it appends exactly one insert-tagged WAL
entry carrying the full record payload, invokes recovery on it, and returns
the record unchanged. -/
theorem c9_insert_contract_amended (cfg : Config) (s : CState) (record : Dict)
    (txId : String) :
    ((cfg.index_keys ++ [cfg.row_key_field]).filter
        (fun k => (dget? record k).isNone) ≠ [] →
      insert cfg s record txId =
        (s, .error (.missingFields ((cfg.index_keys ++ [cfg.row_key_field]).filter
          (fun k => (dget? record k).isNone)))) ∧
      (∀ k, k ∈ (cfg.index_keys ++ [cfg.row_key_field]).filter
          (fun k => (dget? record k).isNone) ↔
        k ∈ cfg.index_keys ++ [cfg.row_key_field] ∧ dget? record k = none)) ∧
    ((cfg.index_keys ++ [cfg.row_key_field]).filter
        (fun k => (dget? record k).isNone) = [] →
      noReservedKeys record = true →
      (record.map Prod.fst).Nodup →
      (∀ k ∈ cfg.index_keys ++ [cfg.row_key_field],
        k ∉ (["Timestamp", "etag"] : List String)) →
      walOK cfg s.wal = true →
      storeGet? s.wal ("wal", txId) = none →
      (insert cfg s record txId).2 = .ok record ∧
      (∃ went, storeGet? (insert cfg s record txId).1.wal ("wal", txId) =
          some went ∧
        dget? went "operation" = some "insert" ∧
        (∀ k v, dget? record k = some v → dget? went k = some v)) ∧
      ((insert cfg s record txId).1.wal.filter
          (fun kv => kv.1.1 == "wal")).length =
        (s.wal.filter (fun kv => kv.1.1 == "wal")).length + 1 ∧
      (insert cfg s record txId).1 =
        (recover cfg [] ⟨s.table, storePut s.wal ("wal", txId)
          (dunion [("PartitionKey", "wal"), ("RowKey", txId),
            ("operation", "insert")] record)⟩ none).1) := by
  constructor
  · intro hmiss
    constructor
    · rw [insert.eq_def]
      simp only [List.isEmpty_iff, hmiss]
      rw [if_neg not_false]
    · intro k
      simp only [List.mem_filter, Option.isNone_iff_eq_none, List.mem_append,
        List.mem_singleton, decide_eq_true_eq]
  · intro hmiss hres hnodup hstrip hwalok hfresh
    have hreq : ∀ k ∈ cfg.index_keys ++ [cfg.row_key_field],
        (dget? record k).isSome := by
      intro k hk
      have h2 := List.filter_eq_nil_iff.mp hmiss k hk
      simp only [Bool.not_eq_true, Option.isNone_eq_false_iff] at h2
      exact h2
    have hPKd : dget? record "PartitionKey" = none :=
      noReservedKeys_get hres (by simp)
    have hRKd : dget? record "RowKey" = none :=
      noReservedKeys_get hres (by simp)
    have hOPd : dget? record "operation" = none :=
      noReservedKeys_get hres (by simp)
    have hentPK : dget? (dunion [("PartitionKey", "wal"), ("RowKey", txId),
        ("operation", "insert")] record) "PartitionKey" = some "wal" := by
      rw [dget?_dunion_of_not_mem _ _ _ hPKd]; rfl
    have hentRK : dget? (dunion [("PartitionKey", "wal"), ("RowKey", txId),
        ("operation", "insert")] record) "RowKey" = some txId := by
      rw [dget?_dunion_of_not_mem _ _ _ hRKd]; rfl
    have hentOP : dget? (dunion [("PartitionKey", "wal"), ("RowKey", txId),
        ("operation", "insert")] record) "operation" = some "insert" := by
      rw [dget?_dunion_of_not_mem _ _ _ hOPd]; rfl
    have hkey : entKey (dunion [("PartitionKey", "wal"), ("RowKey", txId),
        ("operation", "insert")] record) = ("wal", txId) := by
      rw [entKey, hentPK, hentRK]; rfl
    have hrecv : ∀ k v, dget? record k = some v →
        dget? (dunion [("PartitionKey", "wal"), ("RowKey", txId),
          ("operation", "insert")] record) k = some v := by
      intro k v hv
      exact dget?_dunion_right record _ hnodup hv
    have hentreq : requiredPresent cfg (entity_to_payload
        (dunion [("PartitionKey", "wal"), ("RowKey", txId),
          ("operation", "insert")] record)) = true := by
      rw [requiredPresent, List.all_eq_true]
      intro k hk
      obtain ⟨v, hv⟩ := Option.isSome_iff_exists.mp (hreq k hk)
      have hknr : k ∉ (["PartitionKey", "RowKey", "Timestamp", "etag"] :
          List String) := by
        intro hmem
        simp only [List.mem_cons, List.not_mem_nil, or_false] at hmem
        rcases hmem with h | h | h | h
        · rw [h, hPKd] at hv; cases hv
        · rw [h, hRKd] at hv; cases hv
        · exact (hstrip k hk) (by rw [h]; simp)
        · exact (hstrip k hk) (by rw [h]; simp)
      rw [dget?_entity_to_payload hknr, hrecv k v hv]
      rfl
    have hscanok : ∀ d ∈ walScan (storePut s.wal ("wal", txId)
        (dunion [("PartitionKey", "wal"), ("RowKey", txId),
          ("operation", "insert")] record))
        (resolveStart (storePut s.wal ("wal", txId)
          (dunion [("PartitionKey", "wal"), ("RowKey", txId),
            ("operation", "insert")] record)) none),
        (∃ op, dget? d "operation" = some op) ∧
        (∃ r, dget? d "RowKey" = some r) ∧
        (dget? d "operation" = some "insert" ∨
            dget? d "operation" = some "delete" →
          requiredPresent cfg (entity_to_payload d) = true) := by
      intro d hd
      obtain ⟨kv, hkv, rfl⟩ := List.mem_map.mp hd
      have hmem := List.mem_filter.mp hkv
      simp only [Bool.and_eq_true, beq_iff_eq] at hmem
      rcases mem_storePut kv hmem.1 with rfl | hold
      · exact ⟨⟨"insert", hentOP⟩, ⟨txId, hentRK⟩, fun _ => hentreq⟩
      · have hok := walEntryOK_unpack (walOK_spec hwalok hold hmem.2.1)
        exact ⟨hok.2.1, ⟨kv.1.2, hok.1⟩, hok.2.2⟩
    have herr : (recover cfg [] ⟨s.table, storePut s.wal ("wal", txId)
        (dunion [("PartitionKey", "wal"), ("RowKey", txId),
          ("operation", "insert")] record)⟩ none).2 = none := by
      rw [recover]
      exact recoverLoop_noerror cfg _ _ hscanok
    obtain ⟨s2, hrec⟩ : ∃ s2, recover cfg [] ⟨s.table,
        storePut s.wal ("wal", txId)
          (dunion [("PartitionKey", "wal"), ("RowKey", txId),
            ("operation", "insert")] record)⟩ none = (s2, none) := by
      cases hrec : recover cfg [] ⟨s.table, storePut s.wal ("wal", txId)
          (dunion [("PartitionKey", "wal"), ("RowKey", txId),
            ("operation", "insert")] record)⟩ none with
      | mk s2 err =>
        have herr2 : err = none := by
          have h3 := herr
          rw [hrec] at h3
          exact h3
        subst herr2
        exact ⟨s2, rfl⟩
    have hins : insert cfg s record txId = (s2, .ok record) := by
      rw [insert.eq_def]
      simp only [hmiss, List.isEmpty_nil, if_true]
      rw [storeCreateF_nil, hkey, hfresh]
      simp only
      rw [hrec]
    refine ⟨by rw [hins], ?_, ?_, by rw [hins, hrec]⟩
    · refine ⟨dunion [("PartitionKey", "wal"), ("RowKey", txId),
        ("operation", "insert")] record, ?_, hentOP, hrecv⟩
      rw [hins]
      have hs2 : s2 = (recover cfg [] ⟨s.table, storePut s.wal ("wal", txId)
          (dunion [("PartitionKey", "wal"), ("RowKey", txId),
            ("operation", "insert")] record)⟩ none).1 := by
        rw [hrec]
      rw [hs2, recover]
      rw [recoverLoop_wal_get cfg [] _ _ ("wal", txId) rfl]
      exact storeGet?_put_self s.wal _ _
    · rw [hins]
      have hs2 : s2 = (recover cfg [] ⟨s.table, storePut s.wal ("wal", txId)
          (dunion [("PartitionKey", "wal"), ("RowKey", txId),
            ("operation", "insert")] record)⟩ none).1 := by
        rw [hrec]
      rw [hs2, recover, recoverLoop_filter_wal]
      exact storePut_filter_wal_absent txId _ s.wal hfresh

/-- Witness for the amended C9: a clean record on a fresh catalog. -/
theorem c9_amended_witness :
    ((["email"] ++ ["userId"]).filter
      (fun k => (dget? [("userId", "u1"), ("email", "a")] k).isNone) = []) ∧
    noReservedKeys [("userId", "u1"), ("email", "a")] = true ∧
    (insert ⟨["email"], "userId"⟩ ⟨[], []⟩
      [("userId", "u1"), ("email", "a")] "t1").2 =
        .ok [("userId", "u1"), ("email", "a")] :=
  ⟨by decide, by decide,
    ((c9_insert_contract_amended ⟨["email"], "userId"⟩ ⟨[], []⟩
        [("userId", "u1"), ("email", "a")] "t1").2
      (by decide) (by decide) (by decide) (by decide) (by decide) (by decide)).1⟩

/-- Witness for C10 at a concrete no-op WAL entry. -/
theorem c10_witness :
    dget? [("PartitionKey", "wal"), ("RowKey", "t1"), ("operation", "noop")]
        "operation" = some "noop" ∧
    dget? [("PartitionKey", "wal"), ("RowKey", "t1"), ("operation", "noop")]
        "RowKey" = some "t1" ∧
    recoverLoop ⟨["email"], "userId"⟩ [] ⟨[], []⟩
        [[("PartitionKey", "wal"), ("RowKey", "t1"), ("operation", "noop")]] =
      recoverLoop ⟨["email"], "userId"⟩ []
        ⟨[], storeUpsert [] (checkpointEntity "t1")⟩ [] :=
  ⟨by decide, by decide,
    (c10_unknown_op_skipped ⟨["email"], "userId"⟩ [] ⟨[], []⟩
      [("PartitionKey", "wal"), ("RowKey", "t1"), ("operation", "noop")] [] "noop" "t1"
      (by decide) (by decide) (by decide) (by decide)).1⟩

end AzTableCatalog
